import Mathlib

/-!
Shallow embedding of the terrain geometry engine of the 3DMapMaker
repository, together with theorems checking its natural-language
specification.

Modules embedded (one Lean namespace per source file):
* `Contour`  — `app/utils/contourGenerator.ts` (marching squares, segment
  chaining).  All arithmetic in this file is `+ - * /` and comparisons, so
  it is embedded over `ℚ` and stays fully executable.
* `MeshGen`  — the mesh-generation source file (Gaussian DEM smoothing,
  regular grid meshing, Laplacian mesh smoothing).  The Gaussian kernel
  uses `exp`, so this module is embedded over `ℝ`.
* `TIN`      — the adaptive-TIN source file (importance scores with a
  square root, Bowyer–Watson Delaunay triangulation), over `ℝ`.
* `STL`      — `app/utils/stlExporter.ts` (solid extrusion, boundary-edge
  extraction, binary STL serialization), over `ℝ`; the bytes of an IEEE754
  float32 are kept symbolic (constructor `STLByte.f32`), since only the
  byte layout, never a float bit pattern, is claimed.

JavaScript `number` values are modelled as exact rationals/reals; decimal
literals such as `0.0001` are read as the exact rationals they denote.
-/

namespace TerrainProof

noncomputable section

/-! ## Contour : app/utils/contourGenerator.ts -/

namespace Contour

/-- `interface ElevationData` of contourGenerator.ts, over `ℚ`. -/
structure ElevationData where
  elevations : List ℚ
  width : ℕ
  height : ℕ
  minElevation : ℚ
  maxElevation : ℚ
deriving DecidableEq, Repr

/-- A 2-D point `[x, y]`. -/
abbrev Pt := ℚ × ℚ

/-- A raw marching-squares segment `[p1, p2]`. -/
abbrev Seg := Pt × Pt

/-- `interface ContourLayer` of contourGenerator.ts. -/
structure ContourLayer where
  elevation : ℚ
  paths : List (List Pt)
deriving DecidableEq, Repr

instance : Inhabited ContourLayer := ⟨⟨0, []⟩⟩

/-- `MARCHING_SQUARES_EDGES` lookup table: case index (0–15) to the list of
`[edge, edge]` pairs carrying a contour segment across the cell.  Keys
outside 0–15 never arise (the case index is a 4-bit number); they map
to the empty list. -/
def MARCHING_SQUARES_EDGES : ℕ → List (ℕ × ℕ)
  | 0 => []
  | 1 => [(3, 0)]
  | 2 => [(0, 1)]
  | 3 => [(3, 1)]
  | 4 => [(1, 2)]
  | 5 => [(3, 0), (1, 2)]
  | 6 => [(0, 2)]
  | 7 => [(3, 2)]
  | 8 => [(2, 3)]
  | 9 => [(2, 0)]
  | 10 => [(0, 1), (2, 3)]
  | 11 => [(2, 1)]
  | 12 => [(1, 3)]
  | 13 => [(1, 0)]
  | 14 => [(0, 3)]
  | 15 => []
  | _ => []

/-- `interpolate(v1, v2, threshold)`:
`if (Math.abs(v2 - v1) < 0.0001) return 0.5; return (threshold - v1) / (v2 - v1);` -/
def interpolate (v1 v2 threshold : ℚ) : ℚ :=
  if |v2 - v1| < 1 / 10000 then 1 / 2 else (threshold - v1) / (v2 - v1)

/-- `getEdgePoint(edge, x, y, v0, v1, v2, v3, threshold)`; edge positions:
0 = bottom, 1 = right, 2 = top, 3 = left, anything else hits the default
branch and yields the cell centre. -/
def getEdgePoint (edge : ℕ) (x y v0 v1 v2 v3 threshold : ℚ) : Pt :=
  match edge with
  | 0 => (x + interpolate v0 v1 threshold, y)
  | 1 => (x + 1, y + interpolate v1 v2 threshold)
  | 2 => (x + interpolate v3 v2 threshold, y + 1)
  | 3 => (x, y + interpolate v0 v3 threshold)
  | _ => (x + 1 / 2, y + 1 / 2)

/-- `pointsEqual` helper of `connectSegments` (tolerance `0.001`). -/
def pointsEqual (p1 p2 : Pt) : Bool :=
  |p1.1 - p2.1| < 1 / 1000 && |p1.2 - p2.2| < 1 / 1000

/-- Placeholder segment used for (never occurring) out-of-range list reads. -/
def defaultSeg : Seg := ((0, 0), (0, 0))

/-- `findConnecting(point, excludeIndex)` helper of `connectSegments`:
index of the first unused segment (other than `excludeIndex`) with an
endpoint matching `point`. -/
def findConnecting (segments : List Seg) (used : Finset ℕ) (point : Pt)
    (excludeIndex : ℕ) : Option ℕ :=
  (List.range segments.length).find? fun i =>
    decide (i ∉ used) && decide (i ≠ excludeIndex) &&
      (pointsEqual (segments.getD i defaultSeg).1 point ||
        pointsEqual (segments.getD i defaultSeg).2 point)

/-- The forward `while (true)` extension loop of `connectSegments`: keep
finding a segment connecting to the current path end, append its far
endpoint, and mark it used.  The JavaScript loop terminates because the
used set strictly grows; it is embedded with a fuel parameter that the
caller sets to `segments.length`, which the used-set growth makes
sufficient. -/
def extendForward (segments : List Seg) :
    ℕ → List Pt → Pt → ℕ → Finset ℕ → List Pt × Finset ℕ
  | 0, path, _, _, used => (path, used)
  | fuel + 1, path, currentPoint, currentIdx, used =>
    match findConnecting segments used currentPoint currentIdx with
    | none => (path, used)
    | some nextIdx =>
      let seg := segments.getD nextIdx defaultSeg
      if pointsEqual seg.1 currentPoint then
        extendForward segments fuel (path ++ [seg.2]) seg.2 nextIdx (insert nextIdx used)
      else
        extendForward segments fuel (path ++ [seg.1]) seg.1 nextIdx (insert nextIdx used)

/-- The backward extension loop of `connectSegments`: same as
`extendForward` but matching against the path start and prepending
(`path.unshift`). -/
def extendBackward (segments : List Seg) :
    ℕ → List Pt → Pt → ℕ → Finset ℕ → List Pt × Finset ℕ
  | 0, path, _, _, used => (path, used)
  | fuel + 1, path, currentPoint, currentIdx, used =>
    match findConnecting segments used currentPoint currentIdx with
    | none => (path, used)
    | some prevIdx =>
      let seg := segments.getD prevIdx defaultSeg
      if pointsEqual seg.1 currentPoint then
        extendBackward segments fuel (seg.2 :: path) seg.2 prevIdx (insert prevIdx used)
      else
        extendBackward segments fuel (seg.1 :: path) seg.1 prevIdx (insert prevIdx used)

/-- Coordinate normalization applied to a finished path:
`[x / (width - 1), y / (height - 1)]`. -/
def normalizePt (width height : ℕ) (p : Pt) : Pt :=
  (p.1 / ((width : ℚ) - 1), p.2 / ((height : ℚ) - 1))

/-- One iteration of the outer `for` loop of `connectSegments`: if segment
`i` is unused, start a path with its two endpoints, extend forward then
backward, normalize, and append the path. -/
def connectStep (segments : List Seg) (width height : ℕ)
    (st : List (List Pt) × Finset ℕ) (i : ℕ) : List (List Pt) × Finset ℕ :=
  if i ∈ st.2 then st
  else
    let s := segments.getD i defaultSeg
    let used0 := insert i st.2
    let r1 := extendForward segments segments.length [s.1, s.2] s.2 i used0
    let r2 := extendBackward segments segments.length r1.1 (r1.1.headD s.1) i r1.2
    (st.1 ++ [r2.1.map (normalizePt width height)], r2.2)

/-- `connectSegments(segments, width, height)`. -/
def connectSegments (segments : List Seg) (width height : ℕ) :
    List (List Pt) :=
  ((List.range segments.length).foldl (connectStep segments width height)
    ([], ∅)).1

/-- The per-cell marching-squares step of `generateContourLayers`: corner
values (counterclockwise from bottom-left), 4-bit case index, table lookup,
edge-point interpolation.  Out-of-range reads of `elevations` (which cannot
occur when `elevations.length = width * height`) default to `0`. -/
def cellSegments (elevations : List ℚ) (width : ℕ) (threshold : ℚ)
    (x y : ℕ) : List Seg :=
  let v0 := elevations.getD (y * width + x) 0
  let v1 := elevations.getD (y * width + x + 1) 0
  let v2 := elevations.getD ((y + 1) * width + x + 1) 0
  let v3 := elevations.getD ((y + 1) * width + x) 0
  let caseIndex :=
    (if v0 ≥ threshold then 1 else 0) + (if v1 ≥ threshold then 2 else 0) +
    (if v2 ≥ threshold then 4 else 0) + (if v3 ≥ threshold then 8 else 0)
  (MARCHING_SQUARES_EDGES caseIndex).map fun e =>
    (getEdgePoint e.1 x y v0 v1 v2 v3 threshold,
     getEdgePoint e.2 x y v0 v1 v2 v3 threshold)

/-- `generateContourLayers(data, numLayers)`: thresholds
`minElevation + (range * i) / numLayers` for `i = 1 … numLayers - 1`, a
marching-squares sweep per threshold, and segment chaining. -/
def generateContourLayers (data : ElevationData) (numLayers : ℕ) :
    List ContourLayer :=
  let range := data.maxElevation - data.minElevation
  (List.range' 1 (numLayers - 1)).map fun (i : ℕ) =>
    let threshold := data.minElevation + (range * (i : ℚ)) / numLayers
    let segments :=
      (List.range (data.height - 1)).flatMap fun y =>
        (List.range (data.width - 1)).flatMap fun x =>
          cellSegments data.elevations data.width threshold x y
    { elevation := threshold
      paths := connectSegments segments data.width data.height }

end Contour

/-! ## MeshGen : the mesh-generation source file
(`smoothElevationData`, `generateGridMesh`, `applyLaplacianSmoothing`,
`calculateNormals`, `generateTerrainMesh`) -/

namespace MeshGen

/-- `interface ElevationData` of the mesh-generation file, over `ℝ`. -/
structure ElevationData where
  elevations : List ℝ
  width : ℕ
  height : ℕ
  minElevation : ℝ
  maxElevation : ℝ

/-- The minimum of a list, as computed by the source's
`Math.min`-fold seeded with `Infinity`.  For a nonempty list the
`Infinity` seed is equivalent to seeding with the first element (the
engine never folds an empty elevation list), which is how the seed is
modelled here. -/
def listMin (l : List ℝ) : ℝ :=
  l.foldl min (l.headD 0)

/-- The maximum of a list, as computed by the source's `Math.max`-fold
seeded with `-Infinity`; seed modelled as for `listMin`. -/
def listMax (l : List ℝ) : ℝ :=
  l.foldl max (l.headD 0)

/-- `sigma = radius * 0.5 + 0.5` of `smoothElevationData`. -/
def gaussSigma (radius : ℕ) : ℝ := (radius : ℝ) * (1 / 2) + 1 / 2

/-- An unnormalized Gaussian kernel entry
`Math.exp(-(kx*kx + ky*ky) / (2 * sigma * sigma))`. -/
def gaussWeight (radius : ℕ) (kx ky : ℤ) : ℝ :=
  Real.exp (-(((kx : ℝ) * kx + (ky : ℝ) * ky)) /
    (2 * gaussSigma radius * gaussSigma radius))

/-- The kernel offset list `(ky, kx)` for `ky, kx ∈ [-radius, radius]`, in
the nested-loop order of the source. -/
def kernelOffsets (radius : ℕ) : List (ℤ × ℤ) :=
  (List.range (2 * radius + 1)).flatMap fun (a : ℕ) =>
    (List.range (2 * radius + 1)).map fun (b : ℕ) =>
      ((a : ℤ) - radius, (b : ℤ) - radius)

/-- `kernelSum`: the sum of all unnormalized kernel entries. -/
def kernelSum (radius : ℕ) : ℝ :=
  ((kernelOffsets radius).map fun o => gaussWeight radius o.2 o.1).sum

/-- A normalized kernel entry `kernel[ky + radius][kx + radius]` after the
`kernel[ky][kx] /= kernelSum` loop. -/
def kernelNorm (radius : ℕ) (kx ky : ℤ) : ℝ :=
  gaussWeight radius kx ky / kernelSum radius

/-- The in-range kernel taps at sample `(x, y)`:
offsets `(ky, kx)` with `0 ≤ x + kx < width` and `0 ≤ y + ky < height`. -/
def tapsAt (width height radius x y : ℕ) : List (ℤ × ℤ) :=
  (kernelOffsets radius).filter fun o =>
    decide (0 ≤ (x : ℤ) + o.2) && decide ((x : ℤ) + o.2 < width) &&
    decide (0 ≤ (y : ℤ) + o.1) && decide ((y : ℤ) + o.1 < height)

/-- The convolution numerator `sum` accumulated at `(x, y)`. -/
def convSum (cur : List ℝ) (width height radius x y : ℕ) : ℝ :=
  ((tapsAt width height radius x y).map fun o =>
    kernelNorm radius o.2 o.1 *
      cur.getD ((((y : ℤ) + o.1) * width + ((x : ℤ) + o.2)).toNat) 0).sum

/-- The convolution denominator `weightSum` accumulated at `(x, y)`. -/
def convWeightSum (width height radius x y : ℕ) : ℝ :=
  ((tapsAt width height radius x y).map fun o => kernelNorm radius o.2 o.1).sum

/-- One Gaussian blur pass: `next[y * width + x] = sum / weightSum` for
every sample, reading only the previous buffer (double buffering). -/
def smoothPass (width height radius : ℕ) (cur : List ℝ) : List ℝ :=
  (List.range (width * height)).map fun i =>
    convSum cur width height radius (i % width) (i / width) /
      convWeightSum width height radius (i % width) (i / width)

/-- `smoothElevationData(data, passes, radius)`: identity for `passes = 0`,
otherwise `passes` Gaussian blur passes followed by a min/max recompute. -/
def smoothElevationData (data : ElevationData) (passes radius : ℕ) :
    ElevationData :=
  if passes = 0 then data
  else
    let final := (smoothPass data.width data.height radius)^[passes] data.elevations
    { elevations := final
      width := data.width
      height := data.height
      minElevation := listMin final
      maxElevation := listMax final }

/-- `calculateNormals(positions, indices, vertexCount)`: per-vertex
accumulation of (non-normalized) incident face normals, then
normalization; vertices whose accumulated normal has zero length keep it.
The length also stays unchanged when a vertex is in no triangle
(`counts[i] == 0`, initial value `0`). -/
def calculateNormals (positions : List ℝ) (indices : List ℕ)
    (vertexCount : ℕ) : List ℝ :=
  let faceNormal : ℕ → ℝ × ℝ × ℝ := fun t =>
    let i0 := indices.getD (3 * t) 0
    let i1 := indices.getD (3 * t + 1) 0
    let i2 := indices.getD (3 * t + 2) 0
    let ax := positions.getD (i0 * 3) 0
    let ay := positions.getD (i0 * 3 + 1) 0
    let az := positions.getD (i0 * 3 + 2) 0
    let e1x := positions.getD (i1 * 3) 0 - ax
    let e1y := positions.getD (i1 * 3 + 1) 0 - ay
    let e1z := positions.getD (i1 * 3 + 2) 0 - az
    let e2x := positions.getD (i2 * 3) 0 - ax
    let e2y := positions.getD (i2 * 3 + 1) 0 - ay
    let e2z := positions.getD (i2 * 3 + 2) 0 - az
    (e1y * e2z - e1z * e2y, e1z * e2x - e1x * e2z, e1x * e2y - e1y * e2x)
  -- how many of the triangle's three index slots hit vertex `v`
  -- (the source's `for (const idx of [i0, i1, i2])` accumulation)
  let mult : ℕ → ℕ → ℝ := fun t v =>
    (if indices.getD (3 * t) 0 = v then 1 else 0) +
    (if indices.getD (3 * t + 1) 0 = v then 1 else 0) +
    (if indices.getD (3 * t + 2) 0 = v then 1 else 0)
  (List.range vertexCount).flatMap fun v =>
    let nx := ((List.range (indices.length / 3)).map fun t =>
      mult t v * (faceNormal t).1).sum
    let ny := ((List.range (indices.length / 3)).map fun t =>
      mult t v * (faceNormal t).2.1).sum
    let nz := ((List.range (indices.length / 3)).map fun t =>
      mult t v * (faceNormal t).2.2).sum
    let len := Real.sqrt (nx * nx + ny * ny + nz * nz)
    if 0 < len then [nx / len, ny / len, nz / len] else [nx, ny, nz]

/-- `Math.ceil(width / decimationFactor)` on natural inputs. -/
def ceilDiv (width decimationFactor : ℕ) : ℕ :=
  (width + decimationFactor - 1) / decimationFactor

/-- The vertex-generation loop of `generateGridMesh`: row-major flat
position buffer, horizontal coordinates mapped onto
`[-meshSize/2, meshSize/2]`, vertical coordinate
`(elevation - min) * scaleFactor` sampled at clamped source
coordinates. -/
def gridPositions (data : ElevationData)
    (verticalExaggeration meshSize : ℝ) (decimationFactor : ℕ) : List ℝ :=
  let elevationRange :=
    if data.maxElevation - data.minElevation = 0 then 1
    else data.maxElevation - data.minElevation
  let scaleFactor := 3 / elevationRange * verticalExaggeration
  let gridWidth := ceilDiv data.width decimationFactor
  let gridHeight := ceilDiv data.height decimationFactor
  let halfSize := meshSize / 2
  (List.range (gridWidth * gridHeight)).flatMap fun vertIdx =>
    let gx := vertIdx % gridWidth
    let gy := vertIdx / gridWidth
    let sx := min (gx * decimationFactor) (data.width - 1)
    let sy := min (gy * decimationFactor) (data.height - 1)
    let elevation := data.elevations.getD (sy * data.width + sx) data.minElevation
    [(gx : ℝ) / ((gridWidth : ℝ) - 1) * meshSize - halfSize,
     (gy : ℝ) / ((gridHeight : ℝ) - 1) * meshSize - halfSize,
     (elevation - data.minElevation) * scaleFactor]

/-- The index-generation loop of `generateGridMesh`: two triangles per
cell, `(topLeft, bottomLeft, topRight)` then
`(topRight, bottomLeft, bottomRight)`. -/
def gridIndices (gridWidth gridHeight : ℕ) : List ℕ :=
  (List.range (gridHeight - 1)).flatMap fun gy =>
    (List.range (gridWidth - 1)).flatMap fun gx =>
      let topLeft := gy * gridWidth + gx
      let topRight := topLeft + 1
      let bottomLeft := (gy + 1) * gridWidth + gx
      let bottomRight := bottomLeft + 1
      [topLeft, bottomLeft, topRight, topRight, bottomLeft, bottomRight]

/-- `generateGridMesh(data, options)`.  The option record is passed as
explicit arguments `verticalExaggeration`, `meshSize`, `decimationFactor`
(TypeScript defaults `1.5`, `10`, `1` are supplied by callers). -/
def generateGridMesh (data : ElevationData)
    (verticalExaggeration meshSize : ℝ) (decimationFactor : ℕ) :
    List ℝ × List ℕ × List ℝ :=
  let gridWidth := ceilDiv data.width decimationFactor
  let gridHeight := ceilDiv data.height decimationFactor
  let positions := gridPositions data verticalExaggeration meshSize decimationFactor
  let indices := gridIndices gridWidth gridHeight
  (positions, indices, calculateNormals positions indices (gridWidth * gridHeight))

/-- The index `n` of the flat position buffer is the z-coordinate of an
interior grid vertex: `n = idx * 3 + 2` with `idx = gy * gridWidth + gx`,
`1 ≤ gx ≤ gridWidth - 2`, `1 ≤ gy ≤ gridHeight - 2`. -/
def lapInteriorZ (gridWidth gridHeight n : ℕ) : Bool :=
  n % 3 == 2 &&
  1 ≤ n / 3 % gridWidth && n / 3 % gridWidth < gridWidth - 1 &&
  1 ≤ n / 3 / gridWidth && n / 3 / gridWidth < gridHeight - 1

/-- One Laplacian pass: `next.set(current)` then, for every interior
vertex, `next[idx * 3 + 2] = center + lambda * (mean of 4-neighbor z -
center)`, all reads from `current`. -/
def lapPass (gridWidth gridHeight : ℕ) (lambda : ℝ) (cur : List ℝ) :
    List ℝ :=
  (List.range cur.length).map fun n =>
    if lapInteriorZ gridWidth gridHeight n then
      let idx := n / 3
      let left := cur.getD ((idx - 1) * 3 + 2) 0
      let right := cur.getD ((idx + 1) * 3 + 2) 0
      let top := cur.getD ((idx - gridWidth) * 3 + 2) 0
      let bottom := cur.getD ((idx + gridWidth) * 3 + 2) 0
      let center := cur.getD (idx * 3 + 2) 0
      center + lambda * ((left + right + top + bottom) / 4 - center)
    else cur.getD n 0

/-- `applyLaplacianSmoothing(positions, indices, gridWidth, gridHeight,
passes, lambda)`.  The `indices` argument is unused by the source body and
kept for signature fidelity. -/
def applyLaplacianSmoothing (positions : List ℝ) (_indices : List ℕ)
    (gridWidth gridHeight passes : ℕ) (lambda : ℝ) : List ℝ :=
  if passes = 0 then positions
  else (lapPass gridWidth gridHeight lambda)^[passes] positions

/-- `generateTerrainMesh(data, options)`: smooth the DEM, build the grid
mesh, then optional Laplacian smoothing with a normal recompute. -/
def generateTerrainMesh (data : ElevationData)
    (smoothingPasses smoothingRadius laplacianPasses decimationFactor : ℕ)
    (verticalExaggeration meshSize : ℝ) : List ℝ × List ℕ × List ℝ :=
  let smoothedData := smoothElevationData data smoothingPasses smoothingRadius
  let m := generateGridMesh smoothedData verticalExaggeration meshSize decimationFactor
  if 0 < laplacianPasses then
    let gridWidth := (data.width + decimationFactor - 1) / decimationFactor
    let gridHeight := (data.height + decimationFactor - 1) / decimationFactor
    let positions :=
      applyLaplacianSmoothing m.1 m.2.1 gridWidth gridHeight laplacianPasses (1 / 2)
    (positions, m.2.1, calculateNormals positions m.2.1 (gridWidth * gridHeight))
  else m

end MeshGen

/-! ## STL : app/utils/stlExporter.ts -/

namespace STL

/-- One byte of the binary STL buffer.  Bytes written by `setUint8`,
`setUint32` and `setUint16` are concrete (`lit`); a byte written by
`setFloat32` is the `i`-th byte of the IEEE754 little-endian float32
encoding of the real `x` and is kept symbolic (`f32 x i`): no claim
concerns float bit patterns, only the buffer layout. -/
inductive STLByte where
  | lit (n : ℕ)
  | f32 (x : ℝ) (i : Fin 4)

/-- `setFloat32(offset, x, true)`: four consecutive bytes. -/
def f32le (x : ℝ) : List STLByte :=
  [.f32 x 0, .f32 x 1, .f32 x 2, .f32 x 3]

/-- `setUint16(offset, n, true)`: two little-endian bytes. -/
def u16le (n : ℕ) : List STLByte :=
  [.lit (n % 256), .lit (n / 256 % 256)]

/-- `setUint32(offset, n, true)`: four little-endian bytes. -/
def u32le (n : ℕ) : List STLByte :=
  [.lit (n % 256), .lit (n / 256 % 256), .lit (n / 65536 % 256),
   .lit (n / 16777216 % 256)]

/-- Char codes of the header text `'TerrainTiles STL Export'`. -/
def headerCodes : List ℕ :=
  "TerrainTiles STL Export".data.map Char.toNat

/-- The 80-byte header: `header.charCodeAt(i)` for `i < header.length`,
zero otherwise. -/
def headerBytes : List STLByte :=
  (List.range 80).map fun i => .lit (headerCodes.getD i 0)

/-- `positions.getX(i)` on a flat position buffer with item size 3. -/
def posX (positions : List ℝ) (i : ℕ) : ℝ := positions.getD (i * 3) 0

/-- `positions.getY(i)`. -/
def posY (positions : List ℝ) (i : ℕ) : ℝ := positions.getD (i * 3 + 1) 0

/-- `positions.getZ(i)`. -/
def posZ (positions : List ℝ) (i : ℕ) : ℝ := positions.getD (i * 3 + 2) 0

/-- The directed edges `[a,b], [b,c], [c,a]` of triangle `t` of an index
buffer. -/
def triEdges (indices : List ℕ) (t : ℕ) : List (ℕ × ℕ) :=
  let a := indices.getD (3 * t) 0
  let b := indices.getD (3 * t + 1) 0
  let c := indices.getD (3 * t + 2) 0
  [(a, b), (b, c), (c, a)]

/-- One `edgeCount` update of `getBoundaryEdges`: bump the count of `key`
if present (keeping the vertex payload captured at first insertion),
otherwise append a fresh entry with count 1 — the JavaScript `Map`
preserves insertion order exactly like this association list. -/
def bumpEdge (key : ℕ × ℕ) (verts : List ℝ) :
    List ((ℕ × ℕ) × ℕ × List ℝ) → List ((ℕ × ℕ) × ℕ × List ℝ)
  | [] => [(key, 1, verts)]
  | e :: rest =>
    if e.1 = key then (e.1, e.2.1 + 1, e.2.2) :: rest
    else e :: bumpEdge key verts rest

/-- The `edgeCount` map of `getBoundaryEdges` after scanning every
triangle edge: key is the unordered index pair (smaller index first, as
the string key `v1 < v2 ? v1-v2 : v2-v1` encodes). -/
def edgeMap (positions : List ℝ) (indices : List ℕ) :
    List ((ℕ × ℕ) × ℕ × List ℝ) :=
  ((List.range (indices.length / 3)).flatMap (triEdges indices)).foldl
    (fun m e =>
      let key := if e.1 < e.2 then (e.1, e.2) else (e.2, e.1)
      let verts := [posX positions e.1, posY positions e.1, posZ positions e.1,
                    posX positions e.2, posY positions e.2, posZ positions e.2]
      bumpEdge key verts m) []

/-- `getBoundaryEdges(geometry)`: the vertex payloads of edges that occur
in exactly one triangle. -/
def getBoundaryEdges (positions : List ℝ) (indices : List ℕ) :
    List (List ℝ) :=
  ((edgeMap positions indices).filter fun e => e.2.1 = 1).map fun e => e.2.2

/-- `createSolidMesh(topGeometry, baseThickness)`: returns the flat
`position` attribute of the solid geometry — top triangles, bottom
triangles at `baseLevel` with reversed winding, then two wall triangles
per boundary edge.  The `minZ` fold is seeded with `Infinity` in the
source; as in `MeshGen.listMin` the seed is modelled by the first element
(the vertex list of a mesh is never empty when this runs).  The
`computeVertexNormals` call only fills the normal attribute, which the
STL serializer never reads, so it is not modelled. -/
def createSolidMesh (positions : List ℝ) (indices : List ℕ)
    (baseThickness : ℝ) : List ℝ :=
  let count := positions.length / 3
  let zs := (List.range count).map fun i => posZ positions i
  let minZ := zs.foldl min (zs.headD 0)
  let baseLevel := minZ - baseThickness
  let topTris : List (List ℝ) :=
    (List.range (indices.length / 3)).map fun t =>
      let a := indices.getD (3 * t) 0
      let b := indices.getD (3 * t + 1) 0
      let c := indices.getD (3 * t + 2) 0
      [posX positions a, posY positions a, posZ positions a,
       posX positions b, posY positions b, posZ positions b,
       posX positions c, posY positions c, posZ positions c]
  let bottomTris : List (List ℝ) :=
    (List.range (indices.length / 3)).map fun t =>
      let a := indices.getD (3 * t) 0
      let b := indices.getD (3 * t + 1) 0
      let c := indices.getD (3 * t + 2) 0
      [posX positions a, posY positions a, baseLevel,
       posX positions c, posY positions c, baseLevel,
       posX positions b, posY positions b, baseLevel]
  let wallTris : List (List ℝ) :=
    (getBoundaryEdges positions indices).flatMap fun e =>
      let x1 := e.getD 0 0
      let y1 := e.getD 1 0
      let z1 := e.getD 2 0
      let x2 := e.getD 3 0
      let y2 := e.getD 4 0
      let z2 := e.getD 5 0
      [[x1, y1, z1, x2, y2, z2, x1, y1, baseLevel],
       [x2, y2, z2, x2, y2, baseLevel, x1, y1, baseLevel]]
  (topTris ++ bottomTris ++ wallTris).flatten

/-- `triangleCount = positions.count / 3` of `generateBinarySTL`
(`positions.count` itself being `array.length / 3`). -/
def stlTriangleCount (positions : List ℝ) : ℕ :=
  positions.length / 3 / 3

/-- The 50-byte record of triangle `i`: facet normal (normalized cross
product; `THREE.Vector3.normalize` divides by `length || 1`, so a
zero-length cross product stays the zero vector), the three vertices, and
a zero attribute byte count. -/
def stlRecord (positions : List ℝ) (i : ℕ) : List STLByte :=
  let v0x := posX positions (i * 3)
  let v0y := posY positions (i * 3)
  let v0z := posZ positions (i * 3)
  let v1x := posX positions (i * 3 + 1)
  let v1y := posY positions (i * 3 + 1)
  let v1z := posZ positions (i * 3 + 1)
  let v2x := posX positions (i * 3 + 2)
  let v2y := posY positions (i * 3 + 2)
  let v2z := posZ positions (i * 3 + 2)
  let e1x := v1x - v0x
  let e1y := v1y - v0y
  let e1z := v1z - v0z
  let e2x := v2x - v0x
  let e2y := v2y - v0y
  let e2z := v2z - v0z
  let cx := e1y * e2z - e1z * e2y
  let cy := e1z * e2x - e1x * e2z
  let cz := e1x * e2y - e1y * e2x
  let len := Real.sqrt (cx * cx + cy * cy + cz * cz)
  let d := if len = 0 then 1 else len
  f32le (cx / d) ++ f32le (cy / d) ++ f32le (cz / d) ++
  f32le v0x ++ f32le v0y ++ f32le v0z ++
  f32le v1x ++ f32le v1y ++ f32le v1z ++
  f32le v2x ++ f32le v2y ++ f32le v2z ++
  u16le 0

/-- `generateBinarySTL(geometry)`: 80-byte header, triangle count as a
little-endian u32, then one 50-byte record per triangle. -/
def generateBinarySTL (positions : List ℝ) : List STLByte :=
  headerBytes ++ u32le (stlTriangleCount positions) ++
    (List.range (stlTriangleCount positions)).flatMap (stlRecord positions)

/-- The solid geometry built by `exportTerrainToSTL(elevationData,
options)` before serialization: full-resolution smoothed terrain mesh
(with one Laplacian pass when smoothing is on), scaled by
`tileSize / 10`, then extruded by `createSolidMesh`. -/
def exportSolid (data : MeshGen.ElevationData)
    (tileSize baseThickness verticalExaggeration : ℝ)
    (smoothingLevel : ℕ) : List ℝ :=
  let m := MeshGen.generateTerrainMesh data smoothingLevel 1
    (if 0 < smoothingLevel then 1 else 0) 1 verticalExaggeration 10
  let scaleFactor := tileSize / 10
  let scaled := m.1.map fun c => c * scaleFactor
  createSolidMesh scaled m.2.1 baseThickness

/-- The STL byte buffer produced by `exportTerrainToSTL` (the final
`downloadBlob` browser call is outside the engine and not modelled). -/
def exportTerrainToSTLBytes (data : MeshGen.ElevationData)
    (tileSize baseThickness verticalExaggeration : ℝ)
    (smoothingLevel : ℕ) : List STLByte :=
  generateBinarySTL (exportSolid data tileSize baseThickness
    verticalExaggeration smoothingLevel)

end STL

/-! ## TIN : the adaptive-TIN source file
(`delaunayTriangulate`, `inCircumcircle`, `generateAdaptiveTIN`) -/

namespace TIN

/-- `interface ElevationData` of the TIN file, over `ℝ`. -/
structure ElevationData where
  elevations : List ℝ
  width : ℕ
  height : ℕ
  minElevation : ℝ
  maxElevation : ℝ

/-- `interface TINPoint`. -/
structure TINPoint where
  x : ℝ
  y : ℝ
  z : ℝ
  originalIndex : ℕ

/-- A 2-D point handed to the triangulator. -/
abbrev Point2 := ℝ × ℝ

/-- `interface Triangle` (three point indices). -/
structure Triangle where
  i : ℕ
  j : ℕ
  k : ℕ
deriving DecidableEq

/-- `inCircumcircle(p, a, b, c)`: sign of the in-circle determinant,
corrected by the triangle orientation. -/
def inCircumcircle (p a b c : Point2) : Bool :=
  let ax := a.1 - p.1
  let ay := a.2 - p.2
  let bx := b.1 - p.1
  let by' := b.2 - p.2
  let cx := c.1 - p.1
  let cy := c.2 - p.2
  let det :=
    (ax * ax + ay * ay) * (bx * cy - cx * by') -
    (bx * bx + by' * by') * (ax * cy - cx * ay) +
    (cx * cx + cy * cy) * (ax * by' - bx * ay)
  let orient := (a.1 - c.1) * (b.2 - c.2) - (a.2 - c.2) * (b.1 - c.1)
  if 0 < orient then decide (0 < det) else decide (det < 0)

/-- The directed edges of a triangle record. -/
def triangleEdges (t : Triangle) : List (ℕ × ℕ) :=
  [(t.i, t.j), (t.j, t.k), (t.k, t.i)]

/-- Whether triangle `t` has `edge` among its edges, in either
direction. -/
def sharesEdge (t : Triangle) (edge : ℕ × ℕ) : Bool :=
  (triangleEdges t).any fun o =>
    (edge.1 == o.1 && edge.2 == o.2) || (edge.1 == o.2 && edge.2 == o.1)

/-- One insertion step of the Bowyer–Watson loop for point index `pi`:
collect the triangles whose circumcircle contains the point (`bad`,
tracked by list position since the JavaScript `includes`/`===` tests
compare object identity and each triangle in the list is a distinct
object), take the boundary of the cavity (edges not shared with another
bad triangle), drop the bad triangles, and fan the new point to the
boundary edges. -/
def insertPoint (allPoints : List Point2) (pi : ℕ) (tris : List Triangle) :
    List Triangle :=
  let p := allPoints.getD pi (0, 0)
  let vert := fun v => allPoints.getD v (0, 0)
  let bad := tris.enum.filter fun e =>
    inCircumcircle p (vert e.2.i) (vert e.2.j) (vert e.2.k)
  let polygon := bad.flatMap fun e =>
    (triangleEdges e.2).filter fun edge =>
      ! bad.any fun o => o.1 != e.1 && sharesEdge o.2 edge
  let kept := (tris.enum.filter fun e => ! bad.any fun o => o.1 == e.1).map
    fun e => e.2
  kept ++ polygon.map fun edge => ⟨edge.1, edge.2, pi⟩

/-- `delaunayTriangulate(points)`: super-triangle seed, incremental point
insertion, and removal of triangles touching a super-triangle vertex.
The bounding-box folds are `Infinity`-seeded in the source and modelled
by first-element seeds as in `MeshGen.listMin`. -/
def delaunayTriangulate (points : List Point2) : List ℕ :=
  if points.length < 3 then []
  else
    let xs := points.map fun p => p.1
    let ys := points.map fun p => p.2
    let minX := xs.foldl min (xs.headD 0)
    let minY := ys.foldl min (ys.headD 0)
    let maxX := xs.foldl max (xs.headD 0)
    let maxY := ys.foldl max (ys.headD 0)
    let dx := maxX - minX
    let dy := maxY - minY
    let deltaMax := max dx dy * 10
    let p1 : Point2 := (minX - deltaMax, minY - deltaMax)
    let p2 : Point2 := (minX + dx / 2, maxY + deltaMax)
    let p3 : Point2 := (maxX + deltaMax, minY - deltaMax)
    let allPoints := points ++ [p1, p2, p3]
    let n := points.length
    let final := (List.range n).foldl
      (fun tris i => insertPoint allPoints i tris) [⟨n, n + 1, n + 2⟩]
    let kept := final.filter fun t =>
      decide (t.i < n) && decide (t.j < n) && decide (t.k < n)
    kept.flatMap fun t => [t.i, t.j, t.k]

/-- `start, start + step, start + 2*step, …` strictly below `bound` — the
strided `for` loops of the point-selection stages (`step ≥ 1` always
holds at the call sites). -/
def stepRange (start step bound : ℕ) : List ℕ :=
  (List.range ((bound - start + step - 1) / step)).map fun k =>
    start + k * step

/-- `Array.prototype.slice(0, end)` with a JavaScript (possibly negative)
end index. -/
def jsSliceTo {α : Type _} (l : List α) (e : ℤ) : List α :=
  if e < 0 then l.take (((l.length : ℤ) + e).toNat) else l.take e.toNat

/-- The four corner points pushed first by `generateAdaptiveTIN`. -/
def cornerPoints (data : ElevationData) : List TINPoint :=
  [⟨0, 0, data.elevations.getD 0 data.minElevation, 0⟩,
   ⟨(data.width : ℝ) - 1, 0,
     data.elevations.getD (data.width - 1) data.minElevation, data.width - 1⟩,
   ⟨0, (data.height : ℝ) - 1,
     data.elevations.getD ((data.height - 1) * data.width) data.minElevation,
     (data.height - 1) * data.width⟩,
   ⟨(data.width : ℝ) - 1, (data.height : ℝ) - 1,
     data.elevations.getD ((data.height - 1) * data.width + data.width - 1)
       data.minElevation,
     (data.height - 1) * data.width + data.width - 1⟩]

/-- The border points pushed at stride `edgeStep` (top/bottom rows, then
left/right columns). -/
def edgePoints (data : ElevationData) (edgeStep : ℕ) : List TINPoint :=
  ((stepRange edgeStep edgeStep (data.width - 1)).flatMap fun x =>
    [⟨(x : ℝ), 0, data.elevations.getD x data.minElevation, x⟩,
     ⟨(x : ℝ), (data.height : ℝ) - 1,
       data.elevations.getD ((data.height - 1) * data.width + x) data.minElevation,
       (data.height - 1) * data.width + x⟩]) ++
  ((stepRange edgeStep edgeStep (data.height - 1)).flatMap fun y =>
    [⟨0, (y : ℝ), data.elevations.getD (y * data.width) data.minElevation,
       y * data.width⟩,
     ⟨(data.width : ℝ) - 1, (y : ℝ),
       data.elevations.getD (y * data.width + data.width - 1) data.minElevation,
       y * data.width + data.width - 1⟩])

/-- The interior importance scores `(index, laplacian + gradient * 0.5)`,
kept when above `errorThreshold * 0.1`. -/
def importanceScores (data : ElevationData) (errorThreshold : ℝ) :
    List (ℕ × ℝ) :=
  ((List.range' 1 (data.height - 1 - 1)).flatMap fun y =>
    (List.range' 1 (data.width - 1 - 1)).map fun x =>
      let idx := y * data.width + x
      let center := data.elevations.getD idx data.minElevation
      let left := data.elevations.getD (idx - 1) center
      let right := data.elevations.getD (idx + 1) center
      let top := data.elevations.getD (idx - data.width) center
      let bottom := data.elevations.getD (idx + data.width) center
      let laplacian := |(left + right + top + bottom) / 4 - center|
      let dx := (right - left) / 2
      let dy := (bottom - top) / 2
      let gradient := Real.sqrt (dx * dx + dy * dy)
      (idx, laplacian + gradient * (1 / 2))).filter fun s =>
    decide (errorThreshold * (1 / 10) < s.2)

/-- The point-selection stages of `generateAdaptiveTIN`: corners, border
stripe, top-scoring interior points (stable descending sort, budget-bound
slice), optional fallback grid. -/
def tinSelectedPoints (data : ElevationData) (maxError : ℝ)
    (maxPoints : ℕ) : List TINPoint :=
  let elevationRange :=
    if data.maxElevation - data.minElevation = 0 then 1
    else data.maxElevation - data.minElevation
  let errorThreshold := maxError * elevationRange
  let edgeStep := max 1 (max data.width data.height / 20)
  let selected1 := cornerPoints data ++ edgePoints data edgeStep
  let sorted := (importanceScores data errorThreshold).mergeSort
    fun a b => decide (b.2 ≤ a.2)
  let remainingSlots : ℤ := (maxPoints : ℤ) - selected1.length
  let topPoints := jsSliceTo sorted remainingSlots
  let selected2 := selected1 ++ topPoints.map fun s =>
    ⟨(s.1 % data.width : ℕ), (s.1 / data.width : ℕ),
     data.elevations.getD s.1 data.minElevation, s.1⟩
  let selected3 :=
    if (selected2.length : ℝ) < (maxPoints : ℝ) * (8 / 10) then
      let gridStep := max 2
        (⌊Real.sqrt (((data.width * data.height : ℕ) : ℝ) /
          ((maxPoints : ℝ) - selected2.length))⌋.toNat)
      let st0 : List TINPoint × Finset ℕ :=
        (selected2, (selected2.map fun p => p.originalIndex).toFinset)
      (((stepRange gridStep gridStep (data.height - 1)).flatMap fun y =>
          (stepRange gridStep gridStep (data.width - 1)).map fun x =>
            (x, y)).foldl
        (fun st c =>
          if maxPoints ≤ st.1.length then st
          else
            let idx := c.2 * data.width + c.1
            if idx ∈ st.2 then st
            else (st.1 ++
              [⟨(c.1 : ℕ), (c.2 : ℕ), data.elevations.getD idx data.minElevation,
                idx⟩], insert idx st.2))
        st0).1
    else selected2
  selected3

/-- `generateAdaptiveTIN(data, maxError, maxPoints)`: the selected point
set and the Delaunay triangulation of its 2-D projection. -/
def generateAdaptiveTIN (data : ElevationData) (maxError : ℝ)
    (maxPoints : ℕ) : List TINPoint × List ℕ :=
  let selectedPoints := tinSelectedPoints data maxError maxPoints
  let points2D := selectedPoints.map fun p => (p.x, p.y)
  (selectedPoints, delaunayTriangulate points2D)

end TIN

/-! ## General helper lemmas -/

/-- Reading every index of a list with `getD` reproduces the list. -/
theorem map_getD_range {α : Type _} (l : List α) (d : α) :
    (List.range l.length).map (fun n => l.getD n d) = l := by
  apply List.ext_getElem
  · simp
  · intro i h1 h2
    simp only [List.getElem_map, List.getElem_range]
    rw [List.getD_eq_getElem l d h2]

/-- Dropping `k * i` elements of a flat-mapped stride-1 range whose blocks
all have length `k` lands at the start of block `i`. -/
theorem flatMap_range'_drop {α : Type _} (f : ℕ → List α) (k : ℕ)
    (hf : ∀ j, (f j).length = k) :
    ∀ (i s len : ℕ), i < len →
      ((List.range' s len).flatMap f).drop (k * i) =
        (List.range' (s + i) (len - i)).flatMap f := by
  intro i
  induction i with
  | zero => intro s len _; simp
  | succ n ih =>
    intro s len hlt
    obtain ⟨len', rfl⟩ : ∃ l', len = l' + 1 := ⟨len - 1, by omega⟩
    have h1 : List.range' s (len' + 1) = s :: List.range' (s + 1) len' := by
      rw [List.range'_succ]
    rw [h1]
    have h2 : ((s :: List.range' (s + 1) len').flatMap f) =
        f s ++ (List.range' (s + 1) len').flatMap f := by simp
    rw [h2]
    have h3 : k * (n + 1) = (f s).length + k * n := by
      rw [hf s]; ring
    rw [h3, ← List.drop_drop, List.drop_left]
    have h4 : n < len' := by omega
    rw [ih (s + 1) len' h4]
    have h5 : s + 1 + n = s + (n + 1) := by omega
    have h6 : len' - n = len' + 1 - (n + 1) := by omega
    rw [h5, h6]

/-- Length of a flat-map whose blocks all have the same length. -/
theorem flatMap_const_length {α β : Type _} (l : List β) (f : β → List α)
    (k : ℕ) (hf : ∀ j, (f j).length = k) :
    (l.flatMap f).length = k * l.length := by
  induction l with
  | nil => simp
  | cons a t ih =>
    simp only [List.flatMap_cons, List.length_append, hf a, ih,
      List.length_cons, Nat.mul_succ]
    omega

/-- Block `(gy, gx)` of a doubly nested flat-map over ranges with
uniform 6-element cells sits at offset `6 * (gy * gw + gx)`. -/
theorem nested_cell_drop (gw gh gx gy : ℕ) (cell : ℕ → ℕ → List ℕ)
    (hcell : ∀ a b, (cell a b).length = 6)
    (hgx : gx < gw) (hgy : gy < gh) :
    ((((List.range gh).flatMap fun y =>
        (List.range gw).flatMap fun x => cell y x).drop
      (6 * (gy * gw + gx))).take 6) = cell gy gx := by
  have hG : ∀ y, ((List.range gw).flatMap fun x => cell y x).length =
      6 * gw := by
    intro y
    rw [flatMap_const_length _ _ 6 (hcell y), List.length_range]
  have hsum : 6 * (gy * gw + gx) = 6 * gw * gy + 6 * gx := by ring
  rw [hsum, ← List.drop_drop, List.range_eq_range',
    flatMap_range'_drop _ (6 * gw) hG gy 0 gh hgy, Nat.zero_add]
  obtain ⟨m, hm⟩ : ∃ m, gh - gy = m + 1 := ⟨gh - gy - 1, by omega⟩
  rw [hm, List.range'_succ]
  have hflat : ((gy :: List.range' (gy + 1) m).flatMap fun y =>
      (List.range gw).flatMap fun x => cell y x) =
      ((List.range gw).flatMap fun x => cell gy x) ++
        ((List.range' (gy + 1) m).flatMap fun y =>
          (List.range gw).flatMap fun x => cell y x) := by
    simp
  rw [hflat, List.drop_append_of_le_length (by rw [hG gy]; omega),
    List.range_eq_range', flatMap_range'_drop _ 6 (hcell gy) gx 0 gw hgx,
    Nat.zero_add]
  obtain ⟨m', hm'⟩ : ∃ m', gw - gx = m' + 1 := ⟨gw - gx - 1, by omega⟩
  rw [hm', List.range'_succ]
  have hflat2 : ((gx :: List.range' (gx + 1) m').flatMap fun x => cell gy x) =
      cell gy gx ++ ((List.range' (gx + 1) m').flatMap fun x => cell gy x) := by
    simp
  rw [hflat2, List.append_assoc, ← hcell gy gx, List.take_left]

/-- Every STL triangle record is exactly 50 bytes. -/
theorem stlRecord_length (positions : List ℝ) (i : ℕ) :
    (STL.stlRecord positions i).length = 50 := rfl

/-- The STL header block is exactly 80 bytes. -/
theorem headerBytes_length : STL.headerBytes.length = 80 := by
  simp [STL.headerBytes]

/-- Length of the serialized STL buffer. -/
theorem generateBinarySTL_length (positions : List ℝ) :
    (STL.generateBinarySTL positions).length =
      84 + 50 * STL.stlTriangleCount positions := by
  unfold STL.generateBinarySTL
  rw [List.length_append, List.length_append, List.length_flatMap,
    headerBytes_length]
  have h2 : (STL.u32le (STL.stlTriangleCount positions)).length = 4 := rfl
  rw [h2]
  have h3 : (List.length ∘ STL.stlRecord positions) = fun _ : ℕ => 50 := by
    funext a
    exact stlRecord_length positions a
  rw [h3, List.map_const', List.sum_replicate, smul_eq_mul, List.length_range]
  omega

/-- The tail of the STL buffer after the 84-byte header+count block is the
concatenated triangle records. -/
theorem generateBinarySTL_drop84 (positions : List ℝ) :
    (STL.generateBinarySTL positions).drop 84 =
      (List.range' 0 (STL.stlTriangleCount positions)).flatMap
        (STL.stlRecord positions) := by
  have hsplit : STL.generateBinarySTL positions =
      (STL.headerBytes ++ STL.u32le (STL.stlTriangleCount positions)) ++
        (List.range (STL.stlTriangleCount positions)).flatMap
          (STL.stlRecord positions) := by
    unfold STL.generateBinarySTL
    rw [List.append_assoc]
  rw [hsplit, ← List.range_eq_range']
  have hlen : (STL.headerBytes ++
      STL.u32le (STL.stlTriangleCount positions)).length = 84 := by
    rw [List.length_append, headerBytes_length]
    rfl
  rw [← hlen, List.drop_left]

/-! ## Claim theorems -/

/-- A successful `findConnecting` search returns an unused, in-range
segment index. -/
theorem findConnecting_spec (segments : List Contour.Seg)
    (used : Finset ℕ) (point : Contour.Pt) (excludeIndex j : ℕ)
    (hj : Contour.findConnecting segments used point excludeIndex = some j) :
    j ∉ used ∧ j < segments.length := by
  unfold Contour.findConnecting at hj
  have h1 := List.find?_some hj
  have h2 := List.mem_of_find?_eq_some hj
  simp only [Bool.and_eq_true, decide_eq_true_eq] at h1
  exact ⟨h1.1.1, List.mem_range.1 h2⟩

/-- The forward extension loop: each appended point consumes exactly one
previously unused segment, the used set only grows, and it grows only by
in-range indices. -/
theorem extendForward_count (segments : List Contour.Seg) :
    ∀ (fuel : ℕ) (path : List Contour.Pt) (cur : Contour.Pt)
      (ci : ℕ) (used : Finset ℕ),
      (Contour.extendForward segments fuel path cur ci used).1.length +
          used.card =
        path.length +
          (Contour.extendForward segments fuel path cur ci used).2.card ∧
      used ⊆ (Contour.extendForward segments fuel path cur ci used).2 ∧
      (Contour.extendForward segments fuel path cur ci used).2 ⊆
        used ∪ Finset.range segments.length := by
  intro fuel
  induction fuel with
  | zero =>
    intro path cur ci used
    refine ⟨rfl, Finset.Subset.refl _, Finset.subset_union_left⟩
  | succ f ih =>
    intro path cur ci used
    cases hfc : Contour.findConnecting segments used cur ci with
    | none =>
      have heq : Contour.extendForward segments (f + 1) path cur ci used =
          (path, used) := by
        simp only [Contour.extendForward, hfc]
      rw [heq]
      exact ⟨rfl, Finset.Subset.refl _, Finset.subset_union_left⟩
    | some j =>
      obtain ⟨hju, hjlt⟩ := findConnecting_spec segments used cur ci j hfc
      have hcard : (insert j used).card = used.card + 1 :=
        Finset.card_insert_of_not_mem hju
      have hgrow : used ⊆ insert j used := Finset.subset_insert j used
      have hrange : insert j used ∪ Finset.range segments.length =
          used ∪ Finset.range segments.length := by
        ext a
        simp only [Finset.mem_union, Finset.mem_insert, Finset.mem_range]
        constructor
        · rintro ((rfl | h) | h)
          · exact Or.inr hjlt
          · exact Or.inl h
          · exact Or.inr h
        · rintro (h | h)
          · exact Or.inl (Or.inr h)
          · exact Or.inr h
      cases hpe : Contour.pointsEqual (segments.getD j Contour.defaultSeg).1 cur with
      | true =>
        have heq : Contour.extendForward segments (f + 1) path cur ci used =
            Contour.extendForward segments f
              (path ++ [(segments.getD j Contour.defaultSeg).2])
              (segments.getD j Contour.defaultSeg).2 j (insert j used) := by
          simp only [Contour.extendForward, hfc, hpe, if_true]
        rw [heq]
        obtain ⟨hsum, hsub, hup⟩ := ih (path ++
          [(segments.getD j Contour.defaultSeg).2])
          (segments.getD j Contour.defaultSeg).2 j (insert j used)
        refine ⟨?_, hgrow.trans hsub, ?_⟩
        · rw [List.length_append] at hsum
          simp only [List.length_cons, List.length_nil] at hsum
          omega
        · rw [← hrange]
          exact hup
      | false =>
        have heq : Contour.extendForward segments (f + 1) path cur ci used =
            Contour.extendForward segments f
              (path ++ [(segments.getD j Contour.defaultSeg).1])
              (segments.getD j Contour.defaultSeg).1 j (insert j used) := by
          simp only [Contour.extendForward, hfc, hpe, Bool.false_eq_true,
            if_false]
        rw [heq]
        obtain ⟨hsum, hsub, hup⟩ := ih (path ++
          [(segments.getD j Contour.defaultSeg).1])
          (segments.getD j Contour.defaultSeg).1 j (insert j used)
        refine ⟨?_, hgrow.trans hsub, ?_⟩
        · rw [List.length_append] at hsum
          simp only [List.length_cons, List.length_nil] at hsum
          omega
        · rw [← hrange]
          exact hup

/-- The backward extension loop: same counting as the forward one. -/
theorem extendBackward_count (segments : List Contour.Seg) :
    ∀ (fuel : ℕ) (path : List Contour.Pt) (cur : Contour.Pt)
      (ci : ℕ) (used : Finset ℕ),
      (Contour.extendBackward segments fuel path cur ci used).1.length +
          used.card =
        path.length +
          (Contour.extendBackward segments fuel path cur ci used).2.card ∧
      used ⊆ (Contour.extendBackward segments fuel path cur ci used).2 ∧
      (Contour.extendBackward segments fuel path cur ci used).2 ⊆
        used ∪ Finset.range segments.length := by
  intro fuel
  induction fuel with
  | zero =>
    intro path cur ci used
    refine ⟨rfl, Finset.Subset.refl _, Finset.subset_union_left⟩
  | succ f ih =>
    intro path cur ci used
    cases hfc : Contour.findConnecting segments used cur ci with
    | none =>
      have heq : Contour.extendBackward segments (f + 1) path cur ci used =
          (path, used) := by
        simp only [Contour.extendBackward, hfc]
      rw [heq]
      exact ⟨rfl, Finset.Subset.refl _, Finset.subset_union_left⟩
    | some j =>
      obtain ⟨hju, hjlt⟩ := findConnecting_spec segments used cur ci j hfc
      have hcard : (insert j used).card = used.card + 1 :=
        Finset.card_insert_of_not_mem hju
      have hgrow : used ⊆ insert j used := Finset.subset_insert j used
      have hrange : insert j used ∪ Finset.range segments.length =
          used ∪ Finset.range segments.length := by
        ext a
        simp only [Finset.mem_union, Finset.mem_insert, Finset.mem_range]
        constructor
        · rintro ((rfl | h) | h)
          · exact Or.inr hjlt
          · exact Or.inl h
          · exact Or.inr h
        · rintro (h | h)
          · exact Or.inl (Or.inr h)
          · exact Or.inr h
      cases hpe : Contour.pointsEqual (segments.getD j Contour.defaultSeg).1 cur with
      | true =>
        have heq : Contour.extendBackward segments (f + 1) path cur ci used =
            Contour.extendBackward segments f
              ((segments.getD j Contour.defaultSeg).2 :: path)
              (segments.getD j Contour.defaultSeg).2 j (insert j used) := by
          simp only [Contour.extendBackward, hfc, hpe, if_true]
        rw [heq]
        obtain ⟨hsum, hsub, hup⟩ := ih
          ((segments.getD j Contour.defaultSeg).2 :: path)
          (segments.getD j Contour.defaultSeg).2 j (insert j used)
        refine ⟨?_, hgrow.trans hsub, ?_⟩
        · rw [List.length_cons] at hsum
          omega
        · rw [← hrange]
          exact hup
      | false =>
        have heq : Contour.extendBackward segments (f + 1) path cur ci used =
            Contour.extendBackward segments f
              ((segments.getD j Contour.defaultSeg).1 :: path)
              (segments.getD j Contour.defaultSeg).1 j (insert j used) := by
          simp only [Contour.extendBackward, hfc, hpe, Bool.false_eq_true,
            if_false]
        rw [heq]
        obtain ⟨hsum, hsub, hup⟩ := ih
          ((segments.getD j Contour.defaultSeg).1 :: path)
          (segments.getD j Contour.defaultSeg).1 j (insert j used)
        refine ⟨?_, hgrow.trans hsub, ?_⟩
        · rw [List.length_cons] at hsum
          omega
        · rw [← hrange]
          exact hup

/-- One outer-loop step of `connectSegments`: the points-per-path
accounting `Σ lengths = used segments + number of paths` is preserved,
the used set stays inside the index range, only grows, and contains the
processed index afterwards. -/
theorem connectStep_spec (segments : List Contour.Seg) (width height : ℕ)
    (st : List (List Contour.Pt) × Finset ℕ) (i : ℕ)
    (hi : i < segments.length)
    (hsum : (st.1.map List.length).sum = st.2.card + st.1.length)
    (hsub : st.2 ⊆ Finset.range segments.length) :
    ((Contour.connectStep segments width height st i).1.map
        List.length).sum =
      (Contour.connectStep segments width height st i).2.card +
        (Contour.connectStep segments width height st i).1.length ∧
    (Contour.connectStep segments width height st i).2 ⊆
      Finset.range segments.length ∧
    st.2 ⊆ (Contour.connectStep segments width height st i).2 ∧
    i ∈ (Contour.connectStep segments width height st i).2 := by
  simp only [Contour.connectStep]
  split
  · next h => exact ⟨hsum, hsub, Finset.Subset.refl _, h⟩
  · next h =>
    obtain ⟨hf1, hf2, hf3⟩ := extendForward_count segments segments.length
      [(segments.getD i Contour.defaultSeg).1,
       (segments.getD i Contour.defaultSeg).2]
      (segments.getD i Contour.defaultSeg).2 i (insert i st.2)
    obtain ⟨hb1, hb2, hb3⟩ := extendBackward_count segments segments.length
      (Contour.extendForward segments segments.length
        [(segments.getD i Contour.defaultSeg).1,
         (segments.getD i Contour.defaultSeg).2]
        (segments.getD i Contour.defaultSeg).2 i (insert i st.2)).1
      ((Contour.extendForward segments segments.length
        [(segments.getD i Contour.defaultSeg).1,
         (segments.getD i Contour.defaultSeg).2]
        (segments.getD i Contour.defaultSeg).2 i (insert i st.2)).1.headD
          (segments.getD i Contour.defaultSeg).1) i
      (Contour.extendForward segments segments.length
        [(segments.getD i Contour.defaultSeg).1,
         (segments.getD i Contour.defaultSeg).2]
        (segments.getD i Contour.defaultSeg).2 i (insert i st.2)).2
    have hins : insert i st.2 ⊆ Finset.range segments.length :=
      Finset.insert_subset (Finset.mem_range.2 hi) hsub
    have hcard : (insert i st.2).card = st.2.card + 1 :=
      Finset.card_insert_of_not_mem h
    have hr1sub : (Contour.extendForward segments segments.length
        [(segments.getD i Contour.defaultSeg).1,
         (segments.getD i Contour.defaultSeg).2]
        (segments.getD i Contour.defaultSeg).2 i (insert i st.2)).2 ⊆
        Finset.range segments.length :=
      hf3.trans (Finset.union_subset hins (Finset.Subset.refl _))
    refine ⟨?_, ?_, ?_, ?_⟩
    · simp only [List.map_append, List.sum_append, List.map_cons,
        List.map_nil, List.sum_cons, List.sum_nil, List.length_map,
        List.length_append, List.length_cons, List.length_nil] at hf1 hb1 ⊢
      omega
    · exact hb3.trans (Finset.union_subset hr1sub (Finset.Subset.refl _))
    · exact ((Finset.subset_insert i st.2).trans hf2).trans hb2
    · exact hb2 (hf2 (Finset.mem_insert_self i st.2))

/-- The outer loop of `connectSegments` preserves the accounting
invariant and ends with every processed index marked used. -/
theorem connectLoop_invariant (segments : List Contour.Seg)
    (width height : ℕ) :
    ∀ (l : List ℕ) (st : List (List Contour.Pt) × Finset ℕ),
      (∀ i ∈ l, i < segments.length) →
      (st.1.map List.length).sum = st.2.card + st.1.length →
      st.2 ⊆ Finset.range segments.length →
      ((l.foldl (Contour.connectStep segments width height) st).1.map
          List.length).sum =
        (l.foldl (Contour.connectStep segments width height) st).2.card +
          (l.foldl (Contour.connectStep segments width height) st).1.length ∧
      (l.foldl (Contour.connectStep segments width height) st).2 ⊆
        Finset.range segments.length ∧
      st.2 ⊆ (l.foldl (Contour.connectStep segments width height) st).2 ∧
      ∀ i ∈ l, i ∈ (l.foldl (Contour.connectStep segments width height) st).2 := by
  intro l
  induction l with
  | nil =>
    intro st _ hsum hsub
    exact ⟨hsum, hsub, Finset.Subset.refl _, by simp⟩
  | cons a t ih =>
    intro st hl hsum hsub
    have ha : a < segments.length := hl a (List.mem_cons_self _ _)
    obtain ⟨s1, s2, s3, s4⟩ :=
      connectStep_spec segments width height st a ha hsum hsub
    obtain ⟨r1, r2, r3, r4⟩ := ih (Contour.connectStep segments width height st a)
      (fun i hi => hl i (List.mem_cons_of_mem _ hi)) s1 s2
    rw [List.foldl_cons]
    refine ⟨r1, r2, s3.trans r3, ?_⟩
    intro i hi
    rcases List.mem_cons.1 hi with rfl | hit
    · exact r3 s4
    · exact r4 i hit

/-- C9: `connectSegments` assigns each input segment to exactly one output
path — no segment is dropped and none is used twice — so the total number
of points over all returned paths equals the number of segments plus the
number of paths. -/
theorem C9_segment_conservation (segments : List Contour.Seg)
    (width height : ℕ) :
    ((Contour.connectSegments segments width height).map List.length).sum =
      segments.length +
        (Contour.connectSegments segments width height).length := by
  unfold Contour.connectSegments
  obtain ⟨h1, h2, _, h4⟩ := connectLoop_invariant segments width height
    (List.range segments.length) ([], ∅)
    (fun i hi => List.mem_range.1 hi) (by simp) (by simp)
  have hused : ((List.range segments.length).foldl
      (Contour.connectStep segments width height) ([], ∅)).2 =
      Finset.range segments.length := by
    apply Finset.Subset.antisymm h2
    intro i hi
    exact h4 i (List.mem_range.2 (Finset.mem_range.1 hi))
  rw [h1, hused, Finset.card_range]

/-- C10: `interpolate` never divides by a near-zero denominator — when
`|v2 - v1| < 0.0001` it returns exactly `0.5`, otherwise the denominator
has magnitude at least `0.0001`; and every endpoint `getEdgePoint`
produces is one of five expressions built from the cell coordinates and
guarded `interpolate` values by addition only, hence finite for finite
inputs. -/
theorem C10_interpolate_guarded :
    (∀ v1 v2 threshold : ℚ,
      Contour.interpolate v1 v2 threshold = 1 / 2 ∨
        (1 / 10000 ≤ |v2 - v1| ∧
          Contour.interpolate v1 v2 threshold = (threshold - v1) / (v2 - v1))) ∧
    (∀ (edge : ℕ) (x y v0 v1 v2 v3 threshold : ℚ),
      Contour.getEdgePoint edge x y v0 v1 v2 v3 threshold ∈
        [(x + Contour.interpolate v0 v1 threshold, y),
         (x + 1, y + Contour.interpolate v1 v2 threshold),
         (x + Contour.interpolate v3 v2 threshold, y + 1),
         (x, y + Contour.interpolate v0 v3 threshold),
         (x + 1 / 2, y + 1 / 2)]) := by
  constructor
  · intro v1 v2 threshold
    unfold Contour.interpolate
    split
    · exact Or.inl rfl
    · exact Or.inr ⟨le_of_not_lt (by assumption), rfl⟩
  · intro edge x y v0 v1 v2 v3 threshold
    match edge with
    | 0 => simp [Contour.getEdgePoint]
    | 1 => simp [Contour.getEdgePoint]
    | 2 => simp [Contour.getEdgePoint]
    | 3 => simp [Contour.getEdgePoint]
    | (n + 4) => simp [Contour.getEdgePoint]

/-- C6 counterexample: on a flat 2×2 heightfield (`min = max = 0`) with
`numLayers = 2`, the single generated layer has elevation `0`, which *is*
the absolute minimum (and maximum) elevation of the heightfield — so "the
absolute minimum and maximum elevations are never used as thresholds"
fails as stated for every heightfield. -/
theorem C6_counterexample_flat_min_threshold :
    (Contour.generateContourLayers ⟨[0, 0, 0, 0], 2, 2, 0, 0⟩ 2).map
        Contour.ContourLayer.elevation = [0] ∧
    (⟨[0, 0, 0, 0], 2, 2, 0, 0⟩ : Contour.ElevationData).minElevation = 0 ∧
    (⟨[0, 0, 0, 0], 2, 2, 0, 0⟩ : Contour.ElevationData).maxElevation = 0 := by
  refine ⟨?_, rfl, rfl⟩
  unfold Contour.generateContourLayers
  norm_num [List.range']

/-- C6 (amended): `generateContourLayers` produces exactly
`numLayers - 1` layers with thresholds
`min + range * i / numLayers` for `i = 1 … numLayers - 1`; whenever
`min < max` these thresholds are strictly between the minimum and maximum
(so neither extreme is used); on a flat heightfield (`min = max`) every
threshold degenerates to `min`. -/
theorem C6_contour_thresholds (data : Contour.ElevationData)
    (numLayers : ℕ) (h : 2 ≤ numLayers) :
    (Contour.generateContourLayers data numLayers).length = numLayers - 1 ∧
    (∀ i, i < numLayers - 1 →
      ((Contour.generateContourLayers data numLayers).getD i default).elevation =
        data.minElevation +
          (data.maxElevation - data.minElevation) * ((i : ℚ) + 1) / numLayers) ∧
    (data.minElevation < data.maxElevation →
      ∀ i, i < numLayers - 1 →
        data.minElevation <
          ((Contour.generateContourLayers data numLayers).getD i default).elevation ∧
        ((Contour.generateContourLayers data numLayers).getD i default).elevation <
          data.maxElevation) := by
  have hlen : (Contour.generateContourLayers data numLayers).length =
      numLayers - 1 := by
    simp only [Contour.generateContourLayers, List.length_map, List.length_range']
  have helev : ∀ i, i < numLayers - 1 →
      ((Contour.generateContourLayers data numLayers).getD i default).elevation =
        data.minElevation +
          (data.maxElevation - data.minElevation) * ((i : ℚ) + 1) / numLayers := by
    intro i hi
    have hi' : i < (Contour.generateContourLayers data numLayers).length := by
      omega
    rw [List.getD_eq_getElem _ _ hi']
    unfold Contour.generateContourLayers
    simp only [List.getElem_map, List.getElem_range'_1]
    push_cast
    ring
  refine ⟨hlen, helev, ?_⟩
  intro hr i hi
  rw [helev i hi]
  have hrange : (0 : ℚ) < data.maxElevation - data.minElevation := by linarith
  have hnum : (0 : ℚ) < (numLayers : ℚ) := by
    have : 0 < numLayers := by omega
    exact_mod_cast this
  have hip : (0 : ℚ) < (i : ℚ) + 1 := by positivity
  constructor
  · have : (0 : ℚ) <
        (data.maxElevation - data.minElevation) * ((i : ℚ) + 1) / numLayers :=
      div_pos (mul_pos hrange hip) hnum
    linarith
  · have hlt : ((i : ℚ) + 1) / numLayers < 1 := by
      rw [div_lt_one hnum]
      have : i + 1 < numLayers := by omega
      exact_mod_cast this
    have : (data.maxElevation - data.minElevation) * (((i : ℚ) + 1) / numLayers) <
        (data.maxElevation - data.minElevation) * 1 :=
      mul_lt_mul_of_pos_left hlt hrange
    rw [mul_div_assoc]
    linarith

/-- Witness for C6 (amended) at a concrete 2×2 heightfield and
`numLayers = 3`. -/
theorem C6_contour_thresholds_witness :
    2 ≤ 3 ∧
    ((Contour.generateContourLayers ⟨[0, 1, 0, 1], 2, 2, 0, 1⟩ 3).length = 3 - 1 ∧
    (∀ i, i < 3 - 1 →
      ((Contour.generateContourLayers ⟨[0, 1, 0, 1], 2, 2, 0, 1⟩ 3).getD i
          default).elevation =
        (⟨[0, 1, 0, 1], 2, 2, 0, 1⟩ : Contour.ElevationData).minElevation +
          ((⟨[0, 1, 0, 1], 2, 2, 0, 1⟩ : Contour.ElevationData).maxElevation -
            (⟨[0, 1, 0, 1], 2, 2, 0, 1⟩ : Contour.ElevationData).minElevation) *
            ((i : ℚ) + 1) / 3) ∧
    ((⟨[0, 1, 0, 1], 2, 2, 0, 1⟩ : Contour.ElevationData).minElevation <
        (⟨[0, 1, 0, 1], 2, 2, 0, 1⟩ : Contour.ElevationData).maxElevation →
      ∀ i, i < 3 - 1 →
        (⟨[0, 1, 0, 1], 2, 2, 0, 1⟩ : Contour.ElevationData).minElevation <
          ((Contour.generateContourLayers ⟨[0, 1, 0, 1], 2, 2, 0, 1⟩ 3).getD i
              default).elevation ∧
        ((Contour.generateContourLayers ⟨[0, 1, 0, 1], 2, 2, 0, 1⟩ 3).getD i
            default).elevation <
          (⟨[0, 1, 0, 1], 2, 2, 0, 1⟩ : Contour.ElevationData).maxElevation)) :=
  ⟨by decide, C6_contour_thresholds ⟨[0, 1, 0, 1], 2, 2, 0, 1⟩ 3 (by decide)⟩

/-- C8 counterexample: `generateContourLayers` on a 1×1 heightfield — an
invalid input by the claim — is not rejected: it computes and returns a
normal, fully-formed result. -/
theorem C8_counterexample_no_rejection :
    Contour.generateContourLayers ⟨[5], 1, 1, 5, 5⟩ 2 =
      [{ elevation := 5, paths := [] }] := by
  unfold Contour.generateContourLayers
  norm_num [List.range']
  rfl

/-- C8 (amended): the engine entry points perform no input validation;
on a heightfield smaller than 2×2 they still compute and return results —
`generateContourLayers` returns `numLayers - 1` layers, each with an empty
path list, and `generateGridMesh` returns a 1-vertex, 0-triangle mesh. -/
theorem C8_no_input_validation :
    (∀ numLayers i : ℕ,
      (Contour.generateContourLayers ⟨[5], 1, 1, 5, 5⟩ numLayers).length =
        numLayers - 1 ∧
      ((Contour.generateContourLayers ⟨[5], 1, 1, 5, 5⟩ numLayers).getD i
          default).paths = []) ∧
    (∀ vex ms : ℝ,
      (MeshGen.generateGridMesh ⟨[5], 1, 1, 5, 5⟩ vex ms 1).1.length = 3 ∧
      (MeshGen.generateGridMesh ⟨[5], 1, 1, 5, 5⟩ vex ms 1).2.1 = []) := by
  refine ⟨fun numLayers i => ⟨by
      simp only [Contour.generateContourLayers, List.length_map,
        List.length_range'], ?_⟩,
    fun vex ms => ⟨rfl, rfl⟩⟩
  rcases Nat.lt_or_ge i (Contour.generateContourLayers ⟨[5], 1, 1, 5, 5⟩
      numLayers).length with hlt | hge
  · rw [List.getD_eq_getElem _ _ hlt]
    unfold Contour.generateContourLayers
    simp only [List.getElem_map]
    rfl
  · rw [List.getD_eq_default _ _ hge]
    rfl

/-- Every Gaussian kernel entry is positive. -/
theorem gaussWeight_pos (radius : ℕ) (kx ky : ℤ) :
    0 < MeshGen.gaussWeight radius kx ky :=
  Real.exp_pos _

/-- The centre offset `(0, 0)` is among the kernel offsets. -/
theorem zero_mem_kernelOffsets (radius : ℕ) :
    ((0 : ℤ), (0 : ℤ)) ∈ MeshGen.kernelOffsets radius := by
  unfold MeshGen.kernelOffsets
  have h1 : radius ∈ List.range (2 * radius + 1) := List.mem_range.2 (by omega)
  refine List.mem_flatMap.2 ⟨radius, h1, ?_⟩
  refine List.mem_map.2 ⟨radius, h1, ?_⟩
  simp

/-- The kernel normalization constant is positive. -/
theorem kernelSum_pos (radius : ℕ) : 0 < MeshGen.kernelSum radius := by
  unfold MeshGen.kernelSum
  apply List.sum_pos
  · intro a ha
    obtain ⟨o, _, rfl⟩ := List.mem_map.1 ha
    exact gaussWeight_pos radius o.2 o.1
  · have h0 := zero_mem_kernelOffsets radius
    intro hnil
    rw [List.map_eq_nil] at hnil
    rw [hnil] at h0
    exact List.not_mem_nil _ h0

/-- Every normalized kernel entry is positive. -/
theorem kernelNorm_pos (radius : ℕ) (kx ky : ℤ) :
    0 < MeshGen.kernelNorm radius kx ky :=
  div_pos (gaussWeight_pos radius kx ky) (kernelSum_pos radius)

/-- The centre tap is always in range. -/
theorem zero_mem_tapsAt (width height radius x y : ℕ)
    (hx : x < width) (hy : y < height) :
    ((0 : ℤ), (0 : ℤ)) ∈ MeshGen.tapsAt width height radius x y := by
  unfold MeshGen.tapsAt
  refine List.mem_filter.2 ⟨zero_mem_kernelOffsets radius, ?_⟩
  simp only [Bool.and_eq_true, decide_eq_true_eq]
  refine ⟨⟨⟨?_, ?_⟩, ?_⟩, ?_⟩ <;> omega

/-- The per-sample weight sum is positive. -/
theorem convWeightSum_pos (width height radius x y : ℕ)
    (hx : x < width) (hy : y < height) :
    0 < MeshGen.convWeightSum width height radius x y := by
  unfold MeshGen.convWeightSum
  apply List.sum_pos
  · intro a ha
    obtain ⟨o, _, rfl⟩ := List.mem_map.1 ha
    exact kernelNorm_pos radius o.2 o.1
  · have h0 := zero_mem_tapsAt width height radius x y hx hy
    intro hnil
    rw [List.map_eq_nil] at hnil
    rw [hnil] at h0
    exact List.not_mem_nil _ h0

/-- The flat index read by an in-range tap is inside the sample buffer. -/
theorem tap_index_lt (width height radius x y : ℕ) (o : ℤ × ℤ)
    (ho : o ∈ MeshGen.tapsAt width height radius x y) :
    ((((y : ℤ) + o.1) * width + ((x : ℤ) + o.2)).toNat) < width * height := by
  have hcond := (List.mem_filter.1 ho).2
  simp only [Bool.and_eq_true, decide_eq_true_eq] at hcond
  obtain ⟨⟨⟨h1, h2⟩, h3⟩, h4⟩ := hcond
  have hw : (0 : ℤ) < width := by omega
  have hmul : ((y : ℤ) + o.1) * width ≤ ((height : ℤ) - 1) * width :=
    mul_le_mul_of_nonneg_right (by omega) (by omega)
  have hlt : (((y : ℤ) + o.1) * width + ((x : ℤ) + o.2)) <
      (width : ℤ) * height := by nlinarith
  have hnn : (0 : ℤ) ≤ (((y : ℤ) + o.1) * width + ((x : ℤ) + o.2)) := by
    have : (0 : ℤ) ≤ ((y : ℤ) + o.1) * width :=
      mul_nonneg (by omega) (by omega)
    omega
  omega

/-- A Gaussian pass sample stays within any bounds enclosing the input
samples. -/
theorem smoothPassAt_bounds (cur : List ℝ) (width height radius x y : ℕ)
    (lo hi : ℝ) (hlen : cur.length = width * height)
    (hb : ∀ v ∈ cur, lo ≤ v ∧ v ≤ hi)
    (hx : x < width) (hy : y < height) :
    lo ≤ MeshGen.convSum cur width height radius x y /
        MeshGen.convWeightSum width height radius x y ∧
      MeshGen.convSum cur width height radius x y /
        MeshGen.convWeightSum width height radius x y ≤ hi := by
  have hws := convWeightSum_pos width height radius x y hx hy
  have hval : ∀ o ∈ MeshGen.tapsAt width height radius x y,
      lo ≤ cur.getD ((((y : ℤ) + o.1) * width + ((x : ℤ) + o.2)).toNat) 0 ∧
      cur.getD ((((y : ℤ) + o.1) * width + ((x : ℤ) + o.2)).toNat) 0 ≤ hi := by
    intro o ho
    have hidx : ((((y : ℤ) + o.1) * width + ((x : ℤ) + o.2)).toNat) <
        cur.length := by
      rw [hlen]
      exact tap_index_lt width height radius x y o ho
    rw [List.getD_eq_getElem _ _ hidx]
    exact hb _ (List.getElem_mem hidx)
  constructor
  · rw [le_div_iff hws]
    have hle : ((MeshGen.tapsAt width height radius x y).map fun o =>
        MeshGen.kernelNorm radius o.2 o.1 * lo).sum ≤
        MeshGen.convSum cur width height radius x y := by
      unfold MeshGen.convSum
      apply List.sum_le_sum
      intro o ho
      exact mul_le_mul_of_nonneg_left ((hval o ho).1)
        (le_of_lt (kernelNorm_pos radius o.2 o.1))
    have heq : ((MeshGen.tapsAt width height radius x y).map fun o =>
        MeshGen.kernelNorm radius o.2 o.1 * lo).sum =
        MeshGen.convWeightSum width height radius x y * lo := by
      unfold MeshGen.convWeightSum
      rw [← List.sum_map_mul_right]
    rw [heq] at hle
    linarith
  · rw [div_le_iff hws]
    have hle : MeshGen.convSum cur width height radius x y ≤
        ((MeshGen.tapsAt width height radius x y).map fun o =>
          MeshGen.kernelNorm radius o.2 o.1 * hi).sum := by
      unfold MeshGen.convSum
      apply List.sum_le_sum
      intro o ho
      exact mul_le_mul_of_nonneg_left ((hval o ho).2)
        (le_of_lt (kernelNorm_pos radius o.2 o.1))
    have heq : ((MeshGen.tapsAt width height radius x y).map fun o =>
        MeshGen.kernelNorm radius o.2 o.1 * hi).sum =
        MeshGen.convWeightSum width height radius x y * hi := by
      unfold MeshGen.convWeightSum
      rw [← List.sum_map_mul_right]
    rw [heq] at hle
    linarith

/-- A Gaussian pass keeps every sample within any bounds enclosing the
input samples. -/
theorem smoothPass_bounds (cur : List ℝ) (width height radius : ℕ)
    (lo hi : ℝ) (hlen : cur.length = width * height)
    (hb : ∀ v ∈ cur, lo ≤ v ∧ v ≤ hi) :
    ∀ v ∈ MeshGen.smoothPass width height radius cur, lo ≤ v ∧ v ≤ hi := by
  intro v hv
  unfold MeshGen.smoothPass at hv
  obtain ⟨i, hi', rfl⟩ := List.mem_map.1 hv
  have hiwh : i < width * height := List.mem_range.1 hi'
  have hw : 0 < width := by
    rcases Nat.eq_zero_or_pos width with h | h
    · rw [h] at hiwh
      simp at hiwh
    · exact h
  have hx : i % width < width := Nat.mod_lt _ hw
  have hy : i / width < height := by
    rw [Nat.div_lt_iff_lt_mul hw, Nat.mul_comm height width]
    exact hiwh
  exact smoothPassAt_bounds cur width height radius (i % width) (i / width)
    lo hi hlen hb hx hy

/-- A Gaussian pass always outputs `width * height` samples. -/
theorem smoothPass_length (cur : List ℝ) (width height radius : ℕ) :
    (MeshGen.smoothPass width height radius cur).length = width * height := by
  unfold MeshGen.smoothPass
  rw [List.length_map, List.length_range]

/-- A fold whose step only ever extends the list component preserves
membership in it. -/
theorem foldl_fst_mem_mono {α β γ : Type _}
    (step : List α × γ → β → List α × γ)
    (hstep : ∀ st c x, x ∈ st.1 → x ∈ (step st c).1) :
    ∀ (l : List β) (st : List α × γ) (x : α), x ∈ st.1 →
      x ∈ (l.foldl step st).1 := by
  intro l
  induction l with
  | nil => exact fun st x hx => hx
  | cons a t ih =>
    intro st x hx
    exact ih (step st a) x (hstep st a x hx)

/-- Every corner point selected first by `generateAdaptiveTIN` survives
all later point-selection stages. -/
theorem tinSelectedPoints_corners (data : TIN.ElevationData)
    (maxError : ℝ) (maxPoints : ℕ) :
    ∀ q ∈ TIN.cornerPoints data,
      q ∈ TIN.tinSelectedPoints data maxError maxPoints := by
  intro q hq
  simp only [TIN.tinSelectedPoints]
  split
  all_goals
    split
    case isTrue =>
      apply foldl_fst_mem_mono
      · intro st c x hx
        split
        · exact hx
        · split
          · exact hx
          · exact List.mem_append_left _ hx
      · exact List.mem_append_left _ (List.mem_append_left _ hq)
    case isFalse =>
      exact List.mem_append_left _ (List.mem_append_left _ hq)

/-- C7: the point set returned by `generateAdaptiveTIN` always contains
the four grid corner points `(0,0)`, `(width-1,0)`, `(0,height-1)` and
`(width-1,height-1)`, regardless of `maxError` and `maxPoints`. -/
theorem C7_tin_corners (data : TIN.ElevationData) (maxError : ℝ)
    (maxPoints : ℕ) :
    (∃ p ∈ (TIN.generateAdaptiveTIN data maxError maxPoints).1,
      p.x = 0 ∧ p.y = 0) ∧
    (∃ p ∈ (TIN.generateAdaptiveTIN data maxError maxPoints).1,
      p.x = (data.width : ℝ) - 1 ∧ p.y = 0) ∧
    (∃ p ∈ (TIN.generateAdaptiveTIN data maxError maxPoints).1,
      p.x = 0 ∧ p.y = (data.height : ℝ) - 1) ∧
    (∃ p ∈ (TIN.generateAdaptiveTIN data maxError maxPoints).1,
      p.x = (data.width : ℝ) - 1 ∧ p.y = (data.height : ℝ) - 1) := by
  have hpts : (TIN.generateAdaptiveTIN data maxError maxPoints).1 =
      TIN.tinSelectedPoints data maxError maxPoints := rfl
  rw [hpts]
  refine
    ⟨⟨⟨0, 0, data.elevations.getD 0 data.minElevation, 0⟩,
      tinSelectedPoints_corners data maxError maxPoints _
        (List.mem_cons_self _ _), rfl, rfl⟩,
    ⟨⟨(data.width : ℝ) - 1, 0,
        data.elevations.getD (data.width - 1) data.minElevation,
        data.width - 1⟩,
      tinSelectedPoints_corners data maxError maxPoints _
        (List.mem_cons_of_mem _ (List.mem_cons_self _ _)), rfl, rfl⟩,
    ⟨⟨0, (data.height : ℝ) - 1,
        data.elevations.getD ((data.height - 1) * data.width)
          data.minElevation,
        (data.height - 1) * data.width⟩,
      tinSelectedPoints_corners data maxError maxPoints _
        (List.mem_cons_of_mem _ (List.mem_cons_of_mem _
          (List.mem_cons_self _ _))), rfl, rfl⟩,
    ⟨⟨(data.width : ℝ) - 1, (data.height : ℝ) - 1,
        data.elevations.getD ((data.height - 1) * data.width + data.width - 1)
          data.minElevation,
        (data.height - 1) * data.width + data.width - 1⟩,
      tinSelectedPoints_corners data maxError maxPoints _
        (List.mem_cons_of_mem _ (List.mem_cons_of_mem _
          (List.mem_cons_of_mem _ (List.mem_cons_self _ _)))), rfl, rfl⟩⟩

/-- C3: Gaussian smoothing keeps every output sample within the input
bounds `[minElevation, maxElevation]`: each output sample is a weighted
average — with positive, locally re-normalized weights — of in-range
input samples. -/
theorem C3_smoothing_bounds (data : MeshGen.ElevationData)
    (passes radius : ℕ)
    (hlen : data.elevations.length = data.width * data.height)
    (hb : ∀ v ∈ data.elevations,
      data.minElevation ≤ v ∧ v ≤ data.maxElevation)
    (hpasses : 1 ≤ passes) (hradius : 1 ≤ radius ∧ radius ≤ 2) :
    ∀ v ∈ (MeshGen.smoothElevationData data passes radius).elevations,
      data.minElevation ≤ v ∧ v ≤ data.maxElevation := by
  have hiter : ∀ (p : ℕ) (cur : List ℝ),
      cur.length = data.width * data.height →
      (∀ v ∈ cur, data.minElevation ≤ v ∧ v ≤ data.maxElevation) →
      ∀ v ∈ (MeshGen.smoothPass data.width data.height radius)^[p] cur,
        data.minElevation ≤ v ∧ v ≤ data.maxElevation := by
    intro p
    induction p with
    | zero =>
      intro cur _ hcb
      simpa using hcb
    | succ q ih =>
      intro cur hclen hcb
      rw [Function.iterate_succ_apply]
      exact ih _ (smoothPass_length cur data.width data.height radius)
        (smoothPass_bounds cur data.width data.height radius
          data.minElevation data.maxElevation hclen hcb)
  unfold MeshGen.smoothElevationData
  split
  · exact hb
  · exact hiter passes data.elevations hlen hb

/-- Witness for C3 at a flat 2×2 heightfield with one pass of radius 1. -/
theorem C3_smoothing_bounds_witness :
    (([(0 : ℝ), 0, 0, 0]).length = 2 * 2 ∧ 1 ≤ 1 ∧ 1 ≤ 1 ∧ 1 ≤ 2) ∧
    ∀ v ∈ (MeshGen.smoothElevationData ⟨[0, 0, 0, 0], 2, 2, 0, 0⟩ 1
        1).elevations,
      (0 : ℝ) ≤ v ∧ v ≤ (0 : ℝ) :=
  ⟨⟨rfl, le_refl 1, le_refl 1, by decide⟩,
   C3_smoothing_bounds ⟨[0, 0, 0, 0], 2, 2, 0, 0⟩ 1 1 rfl
     (by
       intro v hv
       simp only [List.mem_cons, List.not_mem_nil, or_false] at hv
       rcases hv with rfl | rfl | rfl | rfl <;> exact ⟨le_refl 0, le_refl 0⟩)
     (le_refl 1) ⟨le_refl 1, by decide⟩⟩

/-- One Laplacian pass leaves every component that is not an
interior-vertex z-coordinate unchanged. -/
theorem lapPass_getD (gw gh n : ℕ) (lam : ℝ) (cur : List ℝ)
    (h : MeshGen.lapInteriorZ gw gh n = false) :
    (MeshGen.lapPass gw gh lam cur).getD n 0 = cur.getD n 0 := by
  have hlen : (MeshGen.lapPass gw gh lam cur).length = cur.length := by
    simp [MeshGen.lapPass]
  rcases Nat.lt_or_ge n cur.length with hlt | hge
  · have hlt' : n < (MeshGen.lapPass gw gh lam cur).length := by omega
    rw [List.getD_eq_getElem _ _ hlt']
    unfold MeshGen.lapPass
    simp only [List.getElem_map, List.getElem_range, h, Bool.false_eq_true,
      if_false]
  · rw [List.getD_eq_default _ _ (by omega), List.getD_eq_default _ _ hge]

/-- C4: `applyLaplacianSmoothing` preserves the buffer length and, for any
number of passes and any damping factor, leaves every component other
than the z-coordinate of an interior vertex — in particular every x and y
coordinate and the full position of every boundary-row/boundary-column
vertex — exactly equal to its input value. -/
theorem C4_laplacian_frame (positions : List ℝ) (indices : List ℕ)
    (gw gh passes : ℕ) (lam : ℝ) :
    (MeshGen.applyLaplacianSmoothing positions indices gw gh passes lam).length =
      positions.length ∧
    ∀ n, MeshGen.lapInteriorZ gw gh n = false →
      (MeshGen.applyLaplacianSmoothing positions indices gw gh passes
          lam).getD n 0 =
        positions.getD n 0 := by
  have hiter : ∀ (p : ℕ) (cur : List ℝ),
      ((MeshGen.lapPass gw gh lam)^[p] cur).length = cur.length ∧
      ∀ n, MeshGen.lapInteriorZ gw gh n = false →
        ((MeshGen.lapPass gw gh lam)^[p] cur).getD n 0 = cur.getD n 0 := by
    intro p
    induction p with
    | zero => exact fun cur => ⟨rfl, fun n _ => rfl⟩
    | succ q ih =>
      intro cur
      rw [Function.iterate_succ_apply]
      refine ⟨?_, fun n hn => ?_⟩
      · rw [(ih (MeshGen.lapPass gw gh lam cur)).1]
        simp [MeshGen.lapPass]
      · rw [(ih (MeshGen.lapPass gw gh lam cur)).2 n hn,
          lapPass_getD gw gh n lam cur hn]
  unfold MeshGen.applyLaplacianSmoothing
  split
  · exact ⟨rfl, fun n _ => rfl⟩
  · exact ⟨(hiter passes positions).1, (hiter passes positions).2⟩

/-- Witness for C4: component 0 (an x-coordinate, not an interior
z-coordinate) of a concrete buffer survives two passes untouched. -/
theorem C4_laplacian_frame_witness :
    MeshGen.lapInteriorZ 3 3 0 = false ∧
    (MeshGen.applyLaplacianSmoothing
        [(1 : ℝ), 2, 3] [] 3 3 2 (1 / 2)).getD 0 0 =
      ([(1 : ℝ), 2, 3]).getD 0 0 :=
  ⟨by decide,
   (C4_laplacian_frame [(1 : ℝ), 2, 3] [] 3 3 2 (1 / 2)).2 0 (by decide)⟩

/-- C2: for every solid mesh (flat position buffer), the binary STL buffer
has length exactly `84 + 50 * triangleCount`; bytes 23–79 of the header
are zero padding; the triangle count sits at offset 80 as a little-endian
u32; and each triangle `k` occupies the 50 bytes at offset `84 + 50 * k` —
a 12-byte normal, 36 bytes of vertices, and a 2-byte zero attribute
count. -/
theorem C2_stl_size_law (positions : List ℝ) :
    (STL.generateBinarySTL positions).length =
      84 + 50 * STL.stlTriangleCount positions ∧
    (∀ i, 23 ≤ i → i < 80 →
      (STL.generateBinarySTL positions).getD i (.lit 1) = .lit 0) ∧
    ((STL.generateBinarySTL positions).drop 80).take 4 =
      STL.u32le (STL.stlTriangleCount positions) ∧
    (∀ k, k < STL.stlTriangleCount positions →
      ((STL.generateBinarySTL positions).drop (84 + 50 * k)).take 50 =
        STL.stlRecord positions k ∧
      (STL.stlRecord positions k).length = 50 ∧
      (STL.stlRecord positions k).drop 48 = [.lit 0, .lit 0]) := by
  refine ⟨generateBinarySTL_length positions, ?_, ?_, ?_⟩
  · intro i h23 h80
    have hsplit : STL.generateBinarySTL positions =
        STL.headerBytes ++ (STL.u32le (STL.stlTriangleCount positions) ++
          (List.range (STL.stlTriangleCount positions)).flatMap
            (STL.stlRecord positions)) := by
      unfold STL.generateBinarySTL
      rfl
    rw [hsplit]
    have hi : i < STL.headerBytes.length := by rw [headerBytes_length]; omega
    rw [List.getD_append _ _ _ _ hi]
    unfold STL.headerBytes
    rw [List.getD_eq_getElem _ _ (by simpa using hi)]
    simp only [List.getElem_map, List.getElem_range]
    have hcodes : STL.headerCodes.getD i 0 = 0 := by
      apply List.getD_eq_default
      have : STL.headerCodes.length = 23 := rfl
      omega
    rw [hcodes]
  · have hsplit : STL.generateBinarySTL positions =
        STL.headerBytes ++ (STL.u32le (STL.stlTriangleCount positions) ++
          (List.range (STL.stlTriangleCount positions)).flatMap
            (STL.stlRecord positions)) := by
      unfold STL.generateBinarySTL
      rfl
    have h80 : STL.headerBytes.length = 80 := headerBytes_length
    rw [hsplit, ← h80, List.drop_left]
    have h4 : (STL.u32le (STL.stlTriangleCount positions)).length = 4 := rfl
    rw [← h4, List.take_left]
  · intro k hk
    refine ⟨?_, stlRecord_length positions k, rfl⟩
    have hdrop : (STL.generateBinarySTL positions).drop (84 + 50 * k) =
        ((STL.generateBinarySTL positions).drop 84).drop (50 * k) := by
      rw [List.drop_drop]
    obtain ⟨m, hm⟩ : ∃ m, STL.stlTriangleCount positions - k = m + 1 :=
      ⟨STL.stlTriangleCount positions - k - 1, by omega⟩
    rw [hdrop, generateBinarySTL_drop84,
      flatMap_range'_drop (STL.stlRecord positions) 50
        (stlRecord_length positions) k 0 (STL.stlTriangleCount positions) hk,
      Nat.zero_add, hm, List.range'_succ]
    have hflat : (k :: List.range' (k + 1) m).flatMap
          (STL.stlRecord positions) =
        STL.stlRecord positions k ++
          (List.range' (k + 1) m).flatMap (STL.stlRecord positions) := by
      simp
    rw [hflat, ← stlRecord_length positions k, List.take_left]

/-- C5: on an N×N heightfield with `decimationFactor = 1` (N ≥ 2),
`generateGridMesh` produces exactly N² vertices (3N² position floats) and
exactly 2(N-1)² triangles (6(N-1)² indices), and cell `(gx, gy)` carries
the two triangles `(topLeft, bottomLeft, topRight)` and
`(topRight, bottomLeft, bottomRight)`. -/
theorem C5_grid_mesh_sizing (N : ℕ) (data : MeshGen.ElevationData)
    (hN : 2 ≤ N) (hw : data.width = N) (hh : data.height = N) (vex ms : ℝ) :
    (MeshGen.generateGridMesh data vex ms 1).1.length = 3 * (N * N) ∧
    (MeshGen.generateGridMesh data vex ms 1).2.1.length =
      3 * (2 * ((N - 1) * (N - 1))) ∧
    ∀ gx gy, gx < N - 1 → gy < N - 1 →
      (((MeshGen.generateGridMesh data vex ms 1).2.1.drop
          (6 * (gy * (N - 1) + gx))).take 6) =
        [gy * N + gx, (gy + 1) * N + gx, gy * N + gx + 1,
         gy * N + gx + 1, (gy + 1) * N + gx, (gy + 1) * N + gx + 1] := by
  have hceil : MeshGen.ceilDiv N 1 = N := by
    unfold MeshGen.ceilDiv
    omega
  have hm1 : (MeshGen.generateGridMesh data vex ms 1).1 =
      MeshGen.gridPositions data vex ms 1 := rfl
  have hm2 : (MeshGen.generateGridMesh data vex ms 1).2.1 =
      MeshGen.gridIndices (MeshGen.ceilDiv data.width 1)
        (MeshGen.ceilDiv data.height 1) := rfl
  have hidx : MeshGen.gridIndices N N =
      (List.range (N - 1)).flatMap fun gy =>
        (List.range (N - 1)).flatMap fun gx =>
          [gy * N + gx, (gy + 1) * N + gx, gy * N + gx + 1,
           gy * N + gx + 1, (gy + 1) * N + gx, (gy + 1) * N + gx + 1] := rfl
  refine ⟨?_, ?_, ?_⟩
  · rw [hm1]
    unfold MeshGen.gridPositions
    rw [flatMap_const_length _ _ 3 (fun _ => by rfl), List.length_range, hw, hh,
      hceil]
  · rw [hm2, hw, hh, hceil, hidx]
    have hG : ∀ j : ℕ, (((List.range (N - 1)).flatMap fun gx =>
        [j * N + gx, (j + 1) * N + gx, j * N + gx + 1,
         j * N + gx + 1, (j + 1) * N + gx, (j + 1) * N + gx + 1]) :
          List ℕ).length = 6 * (N - 1) := by
      intro j
      rw [flatMap_const_length _ _ 6 (fun _ => by rfl), List.length_range]
    rw [flatMap_const_length _ _ (6 * (N - 1)) hG, List.length_range]
    ring
  · intro gx gy hgx hgy
    rw [hm2, hw, hh, hceil, hidx]
    exact nested_cell_drop (N - 1) (N - 1) gx gy
      (fun gy gx =>
        [gy * N + gx, (gy + 1) * N + gx, gy * N + gx + 1,
         gy * N + gx + 1, (gy + 1) * N + gx, (gy + 1) * N + gx + 1])
      (fun _ _ => rfl) hgx hgy

/-- Witness for C5 at a flat 2×2 heightfield. -/
theorem C5_grid_mesh_sizing_witness :
    (2 ≤ 2 ∧ (⟨[0, 0, 0, 0], 2, 2, 0, 0⟩ : MeshGen.ElevationData).width = 2 ∧
      (⟨[0, 0, 0, 0], 2, 2, 0, 0⟩ : MeshGen.ElevationData).height = 2 ∧
      0 < 2 - 1) ∧
    ((MeshGen.generateGridMesh ⟨[0, 0, 0, 0], 2, 2, 0, 0⟩ 1 10 1).1.length =
      3 * (2 * 2) ∧
    (MeshGen.generateGridMesh ⟨[0, 0, 0, 0], 2, 2, 0, 0⟩ 1 10 1).2.1.length =
      3 * (2 * ((2 - 1) * (2 - 1))) ∧
    (((MeshGen.generateGridMesh ⟨[0, 0, 0, 0], 2, 2, 0, 0⟩ 1 10 1).2.1.drop
        (6 * (0 * (2 - 1) + 0))).take 6) =
      [0 * 2 + 0, (0 + 1) * 2 + 0, 0 * 2 + 0 + 1,
       0 * 2 + 0 + 1, (0 + 1) * 2 + 0, (0 + 1) * 2 + 0 + 1]) :=
  ⟨⟨by decide, rfl, rfl, by decide⟩,
   (C5_grid_mesh_sizing 2 ⟨[0, 0, 0, 0], 2, 2, 0, 0⟩ (by decide) rfl rfl 1 10).1,
   (C5_grid_mesh_sizing 2 ⟨[0, 0, 0, 0], 2, 2, 0, 0⟩ (by decide) rfl rfl 1 10).2.1,
   (C5_grid_mesh_sizing 2 ⟨[0, 0, 0, 0], 2, 2, 0, 0⟩ (by decide) rfl rfl 1 10).2.2
     0 0 (by decide) (by decide)⟩

/-- Any solid extruded from a 2×2 grid mesh (indices `[0,2,1,1,2,3]`,
whatever the vertex values) has 2 top + 2 bottom + 8 wall = 12 triangles:
the index buffer has 4 boundary edges. -/
theorem createSolidMesh_2x2_count_a (P : List ℝ) :
    (STL.createSolidMesh P [0, 2, 1, 1, 2, 3] 5).length = 108 := rfl

theorem createSolidMesh_2x2_count (P : List ℝ) :
    STL.stlTriangleCount (STL.createSolidMesh P [0, 2, 1, 1, 2, 3] 5) = 12 := by
  unfold STL.stlTriangleCount
  rw [createSolidMesh_2x2_count_a P]

/-- The serialized solid of a 2×2 grid mesh is 684 bytes, whatever the
vertex values. -/
theorem createSolidMesh_2x2_stl_length (P : List ℝ) :
    (STL.generateBinarySTL (STL.createSolidMesh P [0, 2, 1, 1, 2, 3] 5)).length =
      684 := by
  rw [generateBinarySTL_length, createSolidMesh_2x2_count P]

/-- C1: end-to-end export of a flat 2×2 heightfield (all elevations 0)
with `tileSize = 10` and `baseThickness = 5` — for every vertical
exaggeration, the extruded solid contains exactly 12 triangles
(2 top + 2 bottom + 2 per boundary edge × 4 boundary edges) and the
binary STL buffer is exactly 684 bytes (= 84 + 50·12) long. -/
theorem C1_flat_2x2_export (vex : ℝ) :
    STL.stlTriangleCount
        (STL.exportSolid ⟨[0, 0, 0, 0], 2, 2, 0, 0⟩ 10 5 vex 1) = 12 ∧
    (STL.exportTerrainToSTLBytes ⟨[0, 0, 0, 0], 2, 2, 0, 0⟩ 10 5 vex 1).length =
      684 := by
  have hidx : (MeshGen.generateTerrainMesh ⟨[0, 0, 0, 0], 2, 2, 0, 0⟩ 1 1
      (if 0 < 1 then 1 else 0) 1 vex 10).2.1 = [0, 2, 1, 1, 2, 3] := rfl
  have hsolid : STL.exportSolid ⟨[0, 0, 0, 0], 2, 2, 0, 0⟩ 10 5 vex 1 =
      STL.createSolidMesh
        ((MeshGen.generateTerrainMesh ⟨[0, 0, 0, 0], 2, 2, 0, 0⟩ 1 1
          (if 0 < 1 then 1 else 0) 1 vex 10).1.map fun c => c * (10 / 10))
        [0, 2, 1, 1, 2, 3] 5 := by
    simp only [STL.exportSolid]
    rw [hidx]
  constructor
  · rw [hsolid]
    exact createSolidMesh_2x2_count _
  · show (STL.generateBinarySTL
        (STL.exportSolid ⟨[0, 0, 0, 0], 2, 2, 0, 0⟩ 10 5 vex 1)).length = 684
    rw [hsolid]
    exact createSolidMesh_2x2_stl_length _

/-- Witness for C2 at a concrete one-triangle position buffer. -/
theorem C2_stl_size_law_witness :
    0 < STL.stlTriangleCount (List.replicate 9 (0 : ℝ)) ∧
    (((STL.generateBinarySTL (List.replicate 9 (0 : ℝ))).drop (84 + 50 * 0)).take 50 =
        STL.stlRecord (List.replicate 9 (0 : ℝ)) 0 ∧
      (STL.stlRecord (List.replicate 9 (0 : ℝ)) 0).length = 50 ∧
      (STL.stlRecord (List.replicate 9 (0 : ℝ)) 0).drop 48 =
        [.lit 0, .lit 0]) :=
  ⟨by decide,
   (C2_stl_size_law (List.replicate 9 (0 : ℝ))).2.2.2 0 (by decide)⟩

end

end TerrainProof
